import Mathlib

/-!
Verification of the resource-bounded, concurrency-safe, fault-resilient
wrapper layer around `tsl::ordered_map` (repository `ordered-map`).

Shallow embedding of the C++ sources under `src/include/tsl/`:
memory budget tracking (`ordered_map_memory.h`), the LRU recency tracker,
the fragmentation detector, the retry/timeout/CRC network layer
(`ordered_map_network.h`, `ordered_hash_network.h`), the guarded iterator
(`ordered_map_concurrent.h`) and the enhanced map wrapper
(`ordered_map_with_exceptions.h`).

Machine integers (`size_t`, `uint32_t`) are modelled as `Nat` (with
explicit truncation where overflow matters); the thread-local counter of
`tracking_allocator` is modelled as a single counter (single-threaded
view); C++ `float` arithmetic in the fragmentation detector is modelled
over `Rat`.
-/

/-! ## Budget tracker (`ordered_map_memory.h`)

`memory_manager::allocate` (lines 309-325) gates every allocation against
the memory limit and returns `nullptr` on over-budget or heap failure;
`tracking_allocator::deallocate` (lines 63-72) subtracts with explicit
saturation at zero.  The running counter `m_total_allocated` is modelled
as an `Int` so that the no-negative-values property is a statement, not a
typing artifact. -/

/-- State of the budget tracker: the byte ceiling (`m_memory_limit`) and
the running total of allocated bytes (`m_total_allocated`). -/
structure budget_state where
  memory_limit : Nat
  total_allocated : Int
deriving Repr, DecidableEq

/-- One operation on the budget tracker.  `alloc` carries the requested
byte count and whether the underlying heap allocation succeeds (the
`std::bad_alloc` branch of `tracking_allocator::allocate`); `dealloc`
carries the byte count handed back. -/
inductive budget_op where
  | alloc (size : Nat) (heap_ok : Bool)
  | dealloc (size : Nat)
deriving Repr, DecidableEq

/-- `memory_manager::allocate`: if `total_allocated + required_size`
exceeds `m_memory_limit` the call returns `nullptr` (modelled as
`false`) and changes nothing; otherwise the underlying allocation runs
and, on success, `m_total_allocated` grows by `required_size`. -/
def memory_manager.allocate (size : Nat) (heap_ok : Bool) (s : budget_state) :
    budget_state × Bool :=
  if s.total_allocated + size > s.memory_limit then
    (s, false)
  else if heap_ok then
    ({ s with total_allocated := s.total_allocated + size }, true)
  else
    (s, false)

/-- `tracking_allocator::deallocate`: subtract `deallocated_size` from
`m_total_allocated`, saturating at zero when more bytes are returned than
are currently recorded. -/
def tracking_allocator.deallocate (size : Nat) (s : budget_state) : budget_state :=
  if s.total_allocated ≥ size then
    { s with total_allocated := s.total_allocated - size }
  else
    { s with total_allocated := 0 }

/-- Apply one budget operation, returning the new state and whether the
operation reported success (deallocation always succeeds). -/
def budget_apply (op : budget_op) (s : budget_state) : budget_state × Bool :=
  match op with
  | .alloc size heap_ok => memory_manager.allocate size heap_ok s
  | .dealloc size => (tracking_allocator.deallocate size s, true)

/-- Run a sequence of budget operations from a fresh tracker. -/
def budget_run (limit : Nat) (ops : List budget_op) : budget_state :=
  ops.foldl (fun s op => (budget_apply op s).1) ⟨limit, 0⟩

/-- The budget invariant: the counter is non-negative and within the ceiling. -/
def budget_inv (s : budget_state) : Prop :=
  0 ≤ s.total_allocated ∧ s.total_allocated ≤ s.memory_limit

/-! ## LRU recency tracker (`ordered_map_memory.h`, `lru_eviction_policy`, lines 104-180)

The C++ class keeps a `std::list<Key>` (`m_lru_list`, head = most recently
used) plus an `std::unordered_map<Key, list::iterator>` (`m_key_to_iter`).
List nodes are modelled as `(id, key)` pairs where `id` is a fresh
identifier allocated at each `push_front` (a `std::list` iterator is
stable, so a node identity models it faithfully); the unordered map is
modelled as an association list from key to node id. -/

/-- State of `lru_eviction_policy`: recency list (head = most recent),
key-to-node index, and the next fresh node id. -/
structure lru_state (K : Type) where
  lru_list : List (Nat × K)
  key_to_iter : List (K × Nat)
  next_id : Nat
deriving Repr

/-- Lookup in the key-to-node association list (`m_key_to_iter.find`). -/
def assoc_find {K : Type} [DecidableEq K] : List (K × Nat) → K → Option Nat
  | [], _ => none
  | p :: rest, k => if p.1 = k then some p.2 else assoc_find rest k

/-- Insert-or-assign in the association list (`m_key_to_iter[key] = it` /
`it->second = ...`). -/
def assoc_set {K : Type} [DecidableEq K] : List (K × Nat) → K → Nat → List (K × Nat)
  | [], k, v => [(k, v)]
  | p :: rest, k, v => if p.1 = k then (k, v) :: rest else p :: assoc_set rest k v

/-- Erase a key from the association list (`m_key_to_iter.erase`). -/
def assoc_erase {K : Type} [DecidableEq K] : List (K × Nat) → K → List (K × Nat)
  | [], _ => []
  | p :: rest, k => if p.1 = k then rest else p :: assoc_erase rest k

/-- `lru_eviction_policy::touch`: if the key is indexed, erase its node
from the list and push a fresh node to the front, re-pointing the index;
otherwise push a fresh node to the front and index it. -/
def lru_eviction_policy.touch {K : Type} [DecidableEq K] (k : K) (s : lru_state K) :
    lru_state K :=
  match assoc_find s.key_to_iter k with
  | some id =>
    { lru_list := (s.next_id, k) :: s.lru_list.filter (fun p => decide (p.1 ≠ id))
      key_to_iter := assoc_set s.key_to_iter k s.next_id
      next_id := s.next_id + 1 }
  | none =>
    { lru_list := (s.next_id, k) :: s.lru_list
      key_to_iter := assoc_set s.key_to_iter k s.next_id
      next_id := s.next_id + 1 }

/-- `lru_eviction_policy::get_eviction_key`: return `false` (here `none`)
on an empty list, otherwise pop the back node and erase its key from the
index, returning the key. -/
def lru_eviction_policy.get_eviction_key {K : Type} [DecidableEq K] (s : lru_state K) :
    Option K × lru_state K :=
  match s.lru_list.getLast? with
  | none => (none, s)
  | some p =>
    (some p.2,
     { lru_list := s.lru_list.dropLast
       key_to_iter := assoc_erase s.key_to_iter p.2
       next_id := s.next_id })

/-- `lru_eviction_policy::remove`: if the key is indexed, erase its node
from the list and its entry from the index; otherwise do nothing. -/
def lru_eviction_policy.remove {K : Type} [DecidableEq K] (k : K) (s : lru_state K) :
    lru_state K :=
  match assoc_find s.key_to_iter k with
  | some id =>
    { lru_list := s.lru_list.filter (fun p => decide (p.1 ≠ id))
      key_to_iter := assoc_erase s.key_to_iter k
      next_id := s.next_id }
  | none => s

/-- `lru_eviction_policy::clear`: empty both structures. -/
def lru_eviction_policy.clear {K : Type} (s : lru_state K) : lru_state K :=
  { lru_list := [], key_to_iter := [], next_id := s.next_id }

/-- One operation on the recency tracker. -/
inductive lru_op (K : Type) where
  | touch (k : K)
  | evict
  | remove (k : K)
  | clear_all
deriving Repr

/-- Apply one recency-tracker operation to the state. -/
def lru_apply {K : Type} [DecidableEq K] (op : lru_op K) (s : lru_state K) : lru_state K :=
  match op with
  | .touch k => lru_eviction_policy.touch k s
  | .evict => (lru_eviction_policy.get_eviction_key s).2
  | .remove k => lru_eviction_policy.remove k s
  | .clear_all => lru_eviction_policy.clear s

/-- Run a sequence of recency-tracker operations from the empty tracker. -/
def lru_run {K : Type} [DecidableEq K] (ops : List (lru_op K)) : lru_state K :=
  ops.foldl (fun s op => lru_apply op s) ⟨[], [], 0⟩

/-- Modelled from the spec: the abstract recency list, "an ordered
sequence of keys (most-recent-first)".  A touch moves the key to the
front, eviction drops the least-recent (last) key, removal erases the
key, clear empties the list. -/
def recency_spec_apply {K : Type} [DecidableEq K] (op : lru_op K) (l : List K) : List K :=
  match op with
  | .touch k => k :: l.erase k
  | .evict => l.dropLast
  | .remove k => l.erase k
  | .clear_all => []

/-- Modelled from the spec: run the abstract recency list over a trace. -/
def recency_spec_run {K : Type} [DecidableEq K] (ops : List (lru_op K)) : List K :=
  ops.foldl (fun l op => recency_spec_apply op l) []

/-- Well-formedness of the tracker state: node ids are distinct and below
the fresh counter, index keys are distinct, list keys are distinct, and
the index and the list carry exactly the same key/node associations. -/
structure lru_wf {K : Type} (s : lru_state K) : Prop where
  ids_nodup : (s.lru_list.map Prod.fst).Nodup
  ids_lt : ∀ p ∈ s.lru_list, p.1 < s.next_id
  akeys_nodup : (s.key_to_iter.map Prod.fst).Nodup
  lkeys_nodup : (s.lru_list.map Prod.snd).Nodup
  link : ∀ k id, (k, id) ∈ s.key_to_iter ↔ (id, k) ∈ s.lru_list

/-! ## Fragmentation detector (`ordered_map_memory.h`,
`memory_fragmentation_detector`, lines 186-284)

The C++ rate computation uses `float`; it is modelled over `Rat` (the
claims settled against it use values far from the threshold, where the
two agree).  `m_check_interval = 0` makes the C++ `%` undefined, so the
theorems assume a positive interval. -/

/-- State of `memory_fragmentation_detector`. -/
structure frag_state where
  fragmentation_threshold : Rat
  check_interval : Nat
  total_allocated : Nat
  free_memory : Nat
  allocation_count : Nat
  needs_defragmentation : Bool
deriving Repr, DecidableEq

/-- `memory_fragmentation_detector::fragmentation_rate`: zero when nothing
is allocated, otherwise `free / (allocated + free) * 100`. -/
def memory_fragmentation_detector.fragmentation_rate (s : frag_state) : Rat :=
  if s.total_allocated = 0 then 0
  else ((s.free_memory : Rat) / ((s.total_allocated : Rat) + (s.free_memory : Rat))) * 100

/-- `memory_fragmentation_detector::check_fragmentation`: assign the flag
the truth value of the comparison of the current rate against the
threshold (note: an assignment, not a latch). -/
def memory_fragmentation_detector.check_fragmentation (s : frag_state) : frag_state :=
  { s with needs_defragmentation :=
      decide (memory_fragmentation_detector.fragmentation_rate s > s.fragmentation_threshold) }

/-- `memory_fragmentation_detector::record_allocation`: bump the totals and
the operation counter, then sample every `m_check_interval` allocations. -/
def memory_fragmentation_detector.record_allocation (size : Nat) (s : frag_state) : frag_state :=
  let s1 := { s with total_allocated := s.total_allocated + size,
                     allocation_count := s.allocation_count + 1 }
  if s1.allocation_count % s1.check_interval = 0 then
    memory_fragmentation_detector.check_fragmentation s1
  else s1

/-- `memory_fragmentation_detector::record_deallocation`: shrink the
allocated total (saturating at zero) and grow the freed total; no sample
is taken here. -/
def memory_fragmentation_detector.record_deallocation (size : Nat) (s : frag_state) : frag_state :=
  { s with
    total_allocated := if s.total_allocated ≥ size then s.total_allocated - size else 0,
    free_memory := s.free_memory + size }

/-- `memory_fragmentation_detector::reset_defragmentation_flag`. -/
def memory_fragmentation_detector.reset_defragmentation_flag (s : frag_state) : frag_state :=
  { s with needs_defragmentation := false }

/-- One operation on the fragmentation detector. -/
inductive frag_op where
  | record_alloc (size : Nat)
  | record_dealloc (size : Nat)
  | reset_flag
deriving Repr, DecidableEq

/-- Apply one fragmentation-detector operation. -/
def frag_apply (op : frag_op) (s : frag_state) : frag_state :=
  match op with
  | .record_alloc size => memory_fragmentation_detector.record_allocation size s
  | .record_dealloc size => memory_fragmentation_detector.record_deallocation size s
  | .reset_flag => memory_fragmentation_detector.reset_defragmentation_flag s

/-- Run a sequence of fragmentation-detector operations from a fresh
detector with the given threshold and sampling interval. -/
def frag_run (threshold : Rat) (interval : Nat) (ops : List frag_op) : frag_state :=
  ops.foldl (fun s op => frag_apply op s) ⟨threshold, interval, 0, 0, 0, false⟩

/-! ## Retry layer (`ordered_map_network.h` lines 110-216,
`ordered_hash_network.h` lines 93-204)

A call attempt either succeeds or fails with a cause; a run of the retry
wrapper is determined by the sequence of attempt outcomes.  The model
returns the list of delays slept (in the same milliseconds unit as the
code) together with the final result. -/

/-- The failure causes of the transfer layer (exception taxonomy of
`ordered_map_exceptions.h` / `ordered_hash_network.h` restricted to what
the retry code inspects). -/
inductive net_error where
  | timeout
  | io_error
  | sys_error (code : Nat)
  | data_integrity
  | max_retries_exceeded
deriving Repr, DecidableEq

/-- Linux `errno` values inspected by the retry classifiers. -/
def errno_ECONNRESET : Nat := 104

def errno_ECONNABORTED : Nat := 103

def errno_EINTR : Nat := 4

def errno_EAGAIN : Nat := 11

def errno_EWOULDBLOCK : Nat := 11

def errno_ETIMEDOUT : Nat := 110

/-- `network_retry_strategy::should_retry`: refuse once the count reached
`m_max_retries`; otherwise network IO and timeout causes are retryable,
as are system errors with one of five transient codes. -/
def network_retry_strategy.should_retry (max_retries : Nat) (e : net_error)
    (retry_count : Nat) : Bool :=
  if retry_count ≥ max_retries then false
  else
    match e with
    | .io_error => true
    | .timeout => true
    | .sys_error c =>
      decide (c = errno_ECONNRESET ∨ c = errno_ECONNABORTED ∨ c = errno_EINTR ∨
        c = errno_EAGAIN ∨ c = errno_ETIMEDOUT)
    | _ => false

/-- `network_retry_strategy::get_retry_delay`: the linearly increasing
delay `m_initial_delay * (retry_count + 1)`. -/
def network_retry_strategy.get_retry_delay (initial_delay : Nat) (retry_count : Nat) : Nat :=
  initial_delay * (retry_count + 1)

/-- Outcome of one attempt of the wrapped work. -/
inductive attempt_outcome where
  | ok
  | fail (e : net_error)
deriving Repr, DecidableEq

/-- Final result of a retry-wrapped call. -/
inductive retry_result where
  | success
  | failed (e : net_error)
  | incomplete
deriving Repr, DecidableEq

/-- The loop of `with_retry` (`ordered_map_network.h` lines 114-140):
on a failure, rethrow the cause if the retry budget is exhausted or the
predicate rejects it; otherwise sleep `current_delay`, double it
(`current_delay *= 2`), bump `retry_count` and try again.  Returns the
delays slept and the final result; `incomplete` marks a trace that does
not determine the call's end. -/
def with_retry_go (p : net_error → Bool) (max_retries : Nat) :
    List attempt_outcome → Nat → Nat → List Nat × retry_result
  | [], _, _ => ([], .incomplete)
  | .ok :: _, _, _ => ([], .success)
  | .fail e :: rest, retry_count, current_delay =>
    if retry_count ≥ max_retries ∨ p e = false then ([], .failed e)
    else
      let r := with_retry_go p max_retries rest (retry_count + 1) (current_delay * 2)
      (current_delay :: r.1, r.2)

/-- `with_retry` entered with `retry_count = 0` and
`current_delay = initial_delay`. -/
def with_retry (p : net_error → Bool) (max_retries initial_delay : Nat)
    (outcomes : List attempt_outcome) : List Nat × retry_result :=
  with_retry_go p max_retries outcomes 0 initial_delay

/-- The exception filter of `network_serializer::execute_with_retry`
(`ordered_hash_network.h` lines 93-121): timeouts are always retried;
system errors only with codes `EAGAIN`, `EWOULDBLOCK`, `EINTR`,
`ETIMEDOUT`; every other cause escapes the catch blocks. -/
def network_serializer.recoverable (e : net_error) : Bool :=
  match e with
  | .timeout => true
  | .sys_error c =>
    decide (c = errno_EAGAIN ∨ c = errno_EWOULDBLOCK ∨ c = errno_EINTR ∨ c = errno_ETIMEDOUT)
  | _ => false

/-- The loop of `network_serializer::execute_with_retry`: a
non-recoverable cause is rethrown as is; after a recoverable failure the
count is bumped and, once it reaches `max_retries`, a fresh
`network_max_retries_exception` (carrying no cause) is thrown; otherwise
the loop sleeps the constant `retry_delay` and tries again.  Returns the
number of sleeps and the final result. -/
def network_serializer.execute_with_retry (max_retries : Nat) :
    List attempt_outcome → Nat → Nat × retry_result
  | [], _ => (0, .incomplete)
  | .ok :: _, _ => (0, .success)
  | .fail e :: rest, retry_count =>
    if network_serializer.recoverable e = false then (0, .failed e)
    else if retry_count + 1 ≥ max_retries then (0, .failed .max_retries_exceeded)
    else
      let r := network_serializer.execute_with_retry max_retries rest (retry_count + 1)
      (r.1 + 1, r.2)

/-! ## CRC32 and the checksum-verified read (`ordered_map_network.h`)

`crc32_checksum::calculate` (lines 25-37) over a byte buffer; bytes are
`Nat` values below 256, the 32-bit accumulator is a `Nat` kept below
`2 ^ 32`; the final `~crc` on `uint32_t` is `0xFFFFFFFF ^^^ crc`. -/

/-- The reflected CRC-32 polynomial. -/
def crc32_poly : Nat := 0xEDB88320

/-- One inner iteration of `crc32_checksum::calculate`:
`crc = (crc >> 1) ^ ((crc & 1) ? 0xEDB88320 : 0)`. -/
def crc32_step (crc : Nat) : Nat :=
  (crc >>> 1) ^^^ (if crc % 2 = 1 then crc32_poly else 0)

/-- The eight inner iterations applied per byte. -/
def crc32_step8 (crc : Nat) : Nat := crc32_step^[8] crc

/-- Per-byte update of the outer loop: `crc ^= bytes[i]` then eight
shift-and-reduce steps. -/
def crc32_update (crc byte : Nat) : Nat := crc32_step8 (crc ^^^ byte)

/-- `crc32_checksum::calculate`: accumulator initialised to `0xFFFFFFFF`,
folded over the buffer, complemented at the end. -/
def crc32_checksum.calculate (data : List Nat) : Nat :=
  0xFFFFFFFF ^^^ data.foldl crc32_update 0xFFFFFFFF

/-- `crc32_checksum::verify`: recompute and compare. -/
def crc32_checksum.verify (data : List Nat) (expected_crc : Nat) : Bool :=
  decide (crc32_checksum.calculate data = expected_crc)

/-- `safe_deserializer::deserialize_from_buffer` (lines 430-443): a buffer
whose length differs from `sizeof(T)` is rejected as a data-integrity
failure; otherwise the payload bytes are decoded (the pluggable codec is
abstract, so the model returns the raw bytes). -/
def safe_deserializer.deserialize_from_buffer (sizeof_t : Nat) (buffer : List Nat) :
    Except net_error (List Nat) :=
  if buffer.length ≠ sizeof_t then .error .data_integrity
  else .ok buffer

/-- One attempt of `safe_deserializer::deserialize_with_crc` (lines
368-399): read the expected checksum and the payload, verify the CRC
(mismatch throws `data_integrity_exception`), then deserialize from the
buffer. -/
def safe_deserializer.deserialize_attempt (sizeof_t expected_crc : Nat)
    (buffer : List Nat) : Except net_error (List Nat) :=
  if crc32_checksum.verify buffer expected_crc = false then .error .data_integrity
  else safe_deserializer.deserialize_from_buffer sizeof_t buffer

/-- `with_retry` specialised to deterministic (pure) work: every attempt
returns the same value, so the loop needs only the remaining retry budget
as fuel.  A rejected or exhausted cause is rethrown unchanged. -/
def with_retry_det {A : Type} (p : net_error → Bool) :
    Nat → Except net_error A → Except net_error A
  | _, .ok v => .ok v
  | 0, .error e => .error e
  | n + 1, .error e => if p e then with_retry_det p n (.error e) else .error e

/-- `safe_deserializer::deserialize_with_crc`: the attempt wrapped in
`with_retry` with the strategy predicate evaluated at `retry_count = 0`
(as the call sites do). -/
def safe_deserializer.deserialize_with_crc (max_retries sizeof_t expected_crc : Nat)
    (buffer : List Nat) : Except net_error (List Nat) :=
  with_retry_det (fun e => network_retry_strategy.should_retry max_retries e 0) max_retries
    (safe_deserializer.deserialize_attempt sizeof_t expected_crc buffer)

/-! ## Container snapshot transfer (`ordered_map_with_exceptions.h`
lines 505-557)

`serialize_safe` writes, each field CRC-framed: `size()`, `max_size()`,
`bucket_count()`, then every element in iteration order.
`deserialize_safe` clears the target, reads the three header fields,
reserves and re-inserts `size` elements in stream order.  The container
is modelled by its iteration-ordered entry list (the probing/growth of
the underlying `ordered_map` is an external collaborator); the byte-level
codec for one field is the abstract parameter `enc`. -/

/-- A CRC-framed field of the wire format: one of the three header
numbers or one key/value record. -/
inductive wire_field (K V : Type) where
  | nat_field (n : Nat)
  | elem_field (kv : K × V)
deriving Repr, DecidableEq

/-- An `Envelope`: `[checksum][payload]`. -/
structure wire_envelope (K V : Type) where
  crc : Nat
  payload : wire_field K V
deriving Repr, DecidableEq

/-- The container, reduced to what the transfer claims observe: entries
in iteration (= insertion) order and the reserved bucket count. -/
structure model_map (K V : Type) where
  entries : List (K × V)
  bucket_count : Nat
deriving Repr, DecidableEq

/-- `ordered_map::insert` on the content view: an element whose key is
already present is not inserted (and the mapped value is unchanged); a
new key is appended at the end of the iteration order. -/
def ordered_map.insert_entry {K V : Type} [DecidableEq K] (m : model_map K V)
    (kv : K × V) : model_map K V :=
  if kv.1 ∈ m.entries.map Prod.fst then m
  else { m with entries := m.entries ++ [kv] }

/-- `safe_serializer::serialize_with_crc` for one field: emit the CRC32 of
the encoded payload, then the payload. -/
def safe_serializer.serialize_with_crc {K V : Type} (enc : wire_field K V → List Nat)
    (f : wire_field K V) : wire_envelope K V :=
  ⟨crc32_checksum.calculate (enc f), f⟩

/-- `ordered_map_with_exceptions::serialize_safe`: the header triple
(`size`, `max_size`, `bucket_count`) followed by the elements in
iteration order, each field CRC-framed. -/
def ordered_map_with_exceptions.serialize_safe {K V : Type}
    (enc : wire_field K V → List Nat) (max_size_val : Nat) (m : model_map K V) :
    List (wire_envelope K V) :=
  safe_serializer.serialize_with_crc enc (.nat_field m.entries.length) ::
    safe_serializer.serialize_with_crc enc (.nat_field max_size_val) ::
      safe_serializer.serialize_with_crc enc (.nat_field m.bucket_count) ::
        m.entries.map (fun kv => safe_serializer.serialize_with_crc enc (.elem_field kv))

/-- Read one CRC-framed numeric field: verify the checksum, then require a
numeric payload (a payload of the wrong shape has the wrong byte length
for the target type, which `deserialize_from_buffer` reports as a
data-integrity failure); an exhausted stream is an IO failure of the
underlying reader. -/
def safe_deserializer.read_nat_field {K V : Type} (enc : wire_field K V → List Nat) :
    List (wire_envelope K V) → Except net_error (Nat × List (wire_envelope K V))
  | [] => .error .io_error
  | e :: rest =>
    if crc32_checksum.verify (enc e.payload) e.crc = false then .error .data_integrity
    else
      match e.payload with
      | .nat_field n => .ok (n, rest)
      | .elem_field _ => .error .data_integrity

/-- Read one CRC-framed element field (same shape as
`safe_deserializer.read_nat_field`). -/
def safe_deserializer.read_elem_field {K V : Type} (enc : wire_field K V → List Nat) :
    List (wire_envelope K V) → Except net_error ((K × V) × List (wire_envelope K V))
  | [] => .error .io_error
  | e :: rest =>
    if crc32_checksum.verify (enc e.payload) e.crc = false then .error .data_integrity
    else
      match e.payload with
      | .nat_field _ => .error .data_integrity
      | .elem_field kv => .ok (kv, rest)

/-- The element loop of `deserialize_safe`: read and insert `n` elements. -/
def ordered_map_with_exceptions.read_elems {K V : Type} [DecidableEq K]
    (enc : wire_field K V → List Nat) :
    Nat → List (wire_envelope K V) → model_map K V → Except net_error (model_map K V)
  | 0, _, m => .ok m
  | n + 1, stream, m =>
    match safe_deserializer.read_elem_field enc stream with
    | .error e => .error e
    | .ok (kv, rest) =>
      ordered_map_with_exceptions.read_elems enc n rest (ordered_map.insert_entry m kv)

/-- `ordered_map_with_exceptions::deserialize_safe`: clear, read the
header triple, reserve `bucket_count`, then insert `size` elements in
stream order. -/
def ordered_map_with_exceptions.deserialize_safe {K V : Type} [DecidableEq K]
    (enc : wire_field K V → List Nat) (stream : List (wire_envelope K V)) :
    Except net_error (model_map K V) :=
  match safe_deserializer.read_nat_field enc stream with
  | .error e => .error e
  | .ok (size_v, s1) =>
    match safe_deserializer.read_nat_field enc s1 with
    | .error e => .error e
    | .ok (_, s2) =>
      match safe_deserializer.read_nat_field enc s2 with
      | .error e => .error e
      | .ok (bucket_count_v, s3) =>
        ordered_map_with_exceptions.read_elems enc size_v s3
          { entries := [], bucket_count := bucket_count_v }

/-! ## Guarded iterator (`ordered_map_concurrent.h`,
`thread_safe_iterator`, lines 177-422)

The underlying container iterator is abstracted as an integer position;
the bundled lock is irrelevant to validity tracking and is not
modelled.  `m_valid` is the explicit Valid/Invalidated state. -/

/-- Model of `thread_safe_iterator`: underlying iterator position and the
`m_valid` flag. -/
structure ts_iterator where
  pos : Int
  valid : Bool
deriving Repr, DecidableEq

/-- The invalid-iterator condition
(`invalid_iterator_exception`). -/
inductive iterator_error where
  | invalid_iterator
deriving Repr, DecidableEq

/-- `thread_safe_iterator::check_validity` (lines 416-421): throw when the
instance is invalidated. -/
def ts_iterator.check_validity (it : ts_iterator) : Except iterator_error Unit :=
  if it.valid then .ok () else .error .invalid_iterator

/-- The operations of `thread_safe_iterator` that the safety claim ranges
over; binary operations carry the other operand. -/
inductive iter_op where
  | deref
  | arrow
  | pre_increment
  | post_increment
  | pre_decrement
  | post_decrement
  | eq_compare (other : ts_iterator)
  | ne_compare (other : ts_iterator)
  | lt_compare (other : ts_iterator)
  | gt_compare (other : ts_iterator)
  | le_compare (other : ts_iterator)
  | ge_compare (other : ts_iterator)
  | distance (other : ts_iterator)
  | offset_add (n : Int)
  | offset_sub (n : Int)
  | offset_add_assign (n : Int)
  | offset_sub_assign (n : Int)
  | subscript (n : Int)
  | get_underlying
deriving Repr

/-- What an iterator operation returns when it does not throw. -/
inductive iter_result where
  | pos_value (p : Int)
  | bool_value (b : Bool)
  | int_value (d : Int)
  | iter_value (it : ts_iterator)
deriving Repr, DecidableEq

/-- `operator==`: validate both sides, then compare the underlying
iterators. -/
def ts_iterator.eq_op (it other : ts_iterator) : Except iterator_error Bool :=
  match it.check_validity with
  | .error e => .error e
  | .ok _ =>
    match other.check_validity with
    | .error e => .error e
    | .ok _ => .ok (decide (it.pos = other.pos))

/-- `operator<`: validate both sides, then compare positions. -/
def ts_iterator.lt_op (it other : ts_iterator) : Except iterator_error Bool :=
  match it.check_validity with
  | .error e => .error e
  | .ok _ =>
    match other.check_validity with
    | .error e => .error e
    | .ok _ => .ok (decide (it.pos < other.pos))

/-- Dispatch one `thread_safe_iterator` operation, mirroring the member
functions one by one: every one of them calls `check_validity()` (on both
operands for comparisons and distance) before touching `m_iterator`.
Returns the produced value together with the instance's state after the
call. -/
def thread_safe_iterator_apply (op : iter_op) (it : ts_iterator) :
    Except iterator_error (iter_result × ts_iterator) :=
  match op with
  | .deref =>
    match it.check_validity with
    | .error e => .error e
    | .ok _ => .ok (.pos_value it.pos, it)
  | .arrow =>
    match it.check_validity with
    | .error e => .error e
    | .ok _ => .ok (.pos_value it.pos, it)
  | .pre_increment =>
    match it.check_validity with
    | .error e => .error e
    | .ok _ => .ok (.iter_value { it with pos := it.pos + 1 }, { it with pos := it.pos + 1 })
  | .post_increment =>
    match it.check_validity with
    | .error e => .error e
    | .ok _ => .ok (.iter_value it, { it with pos := it.pos + 1 })
  | .pre_decrement =>
    match it.check_validity with
    | .error e => .error e
    | .ok _ => .ok (.iter_value { it with pos := it.pos - 1 }, { it with pos := it.pos - 1 })
  | .post_decrement =>
    match it.check_validity with
    | .error e => .error e
    | .ok _ => .ok (.iter_value it, { it with pos := it.pos - 1 })
  | .eq_compare other =>
    match ts_iterator.eq_op it other with
    | .error e => .error e
    | .ok b => .ok (.bool_value b, it)
  | .ne_compare other =>
    match ts_iterator.eq_op it other with
    | .error e => .error e
    | .ok b => .ok (.bool_value !b, it)
  | .lt_compare other =>
    match ts_iterator.lt_op it other with
    | .error e => .error e
    | .ok b => .ok (.bool_value b, it)
  | .gt_compare other =>
    match ts_iterator.lt_op other it with
    | .error e => .error e
    | .ok b => .ok (.bool_value b, it)
  | .le_compare other =>
    match ts_iterator.lt_op other it with
    | .error e => .error e
    | .ok b => .ok (.bool_value !b, it)
  | .ge_compare other =>
    match ts_iterator.lt_op it other with
    | .error e => .error e
    | .ok b => .ok (.bool_value !b, it)
  | .distance other =>
    match it.check_validity with
    | .error e => .error e
    | .ok _ =>
      match other.check_validity with
      | .error e => .error e
      | .ok _ => .ok (.int_value (it.pos - other.pos), it)
  | .offset_add n =>
    match it.check_validity with
    | .error e => .error e
    | .ok _ => .ok (.iter_value ⟨it.pos + n, true⟩, it)
  | .offset_sub n =>
    match it.check_validity with
    | .error e => .error e
    | .ok _ => .ok (.iter_value ⟨it.pos - n, true⟩, it)
  | .offset_add_assign n =>
    match it.check_validity with
    | .error e => .error e
    | .ok _ => .ok (.iter_value { it with pos := it.pos + n }, { it with pos := it.pos + n })
  | .offset_sub_assign n =>
    match it.check_validity with
    | .error e => .error e
    | .ok _ => .ok (.iter_value { it with pos := it.pos - n }, { it with pos := it.pos - n })
  | .subscript n =>
    match it.check_validity with
    | .error e => .error e
    | .ok _ => .ok (.pos_value (it.pos + n), it)
  | .get_underlying =>
    match it.check_validity with
    | .error e => .error e
    | .ok _ => .ok (.pos_value it.pos, it)

/-- The move constructor (lines 202-207): the new instance takes the
iterator, the lock and the validity flag; the moved-from instance is
marked invalid.  Returns `(moved_to, moved_from_after)`. -/
def ts_iterator.move_from (it : ts_iterator) : ts_iterator × ts_iterator :=
  (⟨it.pos, it.valid⟩, ⟨it.pos, false⟩)

/-- `thread_safe_iterator::invalidate`. -/
def ts_iterator.invalidate (it : ts_iterator) : ts_iterator :=
  { it with valid := false }

/-! ## Write path of the wrapper (`ordered_map_with_exceptions.h`
lines 159-175 and 691-702)

`insert` runs `base_type::insert` first (the mutation), then
`check_memory_usage()`; that helper calls
`memory_manager::check_memory_usage` and, on a memory-limit condition,
`memory_manager::evict_lru_elements(10)`, rethrowing if eviction fails.
Neither memory-manager member is defined in the sources (only this call
site exists), so both are modelled from the spec below.  The state joins
the container contents (keys with their tracked byte sizes), the budget
and the abstract recency list. -/

/-- Combined wrapper state for the write path: iteration-ordered entries
`(key, tracked size in bytes)`, the budget counter and ceiling, and the
recency list (head = most recent). -/
structure om_state (K : Type) where
  entries : List (K × Nat)
  allocated : Nat
  ceiling : Nat
  lru : List K
deriving Repr, DecidableEq

/-- The tracked byte size of a key's element (zero if absent). -/
def om_entry_size {K : Type} [DecidableEq K] (s : om_state K) (k : K) : Nat :=
  match s.entries.find? (fun p => decide (p.1 = k)) with
  | some p => p.2
  | none => 0

/-- The memory-limit condition of the write path. -/
inductive om_error where
  | memory_limit
deriving Repr, DecidableEq

/-- Modelled from the spec: `memory_manager::evict_lru_elements(n)` is
missing from the sources; per spec 4.1 it repeatedly pops the
least-recently-used key from the recency list, removes it from the
container and from the Budget, until the usage fits the ceiling, the
candidate list is empty, or `n` evictions have been spent; it reports
whether the usage now fits. -/
def memory_manager.evict_lru_elements {K : Type} [DecidableEq K] :
    Nat → om_state K → om_state K × Bool
  | 0, s => (s, decide (s.allocated ≤ s.ceiling))
  | n + 1, s =>
    if s.allocated ≤ s.ceiling then (s, true)
    else
      match s.lru.getLast? with
      | none => (s, false)
      | some k =>
        memory_manager.evict_lru_elements n
          { entries := s.entries.filter (fun p => decide (p.1 ≠ k))
            allocated := s.allocated - om_entry_size s k
            ceiling := s.ceiling
            lru := s.lru.dropLast }

/-- `ordered_map_with_exceptions::check_memory_usage` (lines 691-702):
`memory_manager::check_memory_usage` (missing from the sources, modelled
from the spec as raising the memory-limit condition exactly when
`allocated_bytes` exceeds `ceiling_bytes`) and, when it raises, a bounded
eviction of at most 10 elements; if eviction cannot restore the budget
the condition is rethrown.  Returns the (possibly evicted-from) state and
whether the check passed. -/
def ordered_map_with_exceptions.check_memory_usage {K : Type} [DecidableEq K]
    (s : om_state K) : om_state K × Bool :=
  if s.allocated ≤ s.ceiling then (s, true)
  else memory_manager.evict_lru_elements 10 s

/-- `ordered_map_with_exceptions::insert` (lines 159-175): run the base
insertion first (an element with a fresh key is appended and its bytes
are drawn from the budget; an existing key leaves the container
unchanged), then `check_memory_usage()`; per spec 4.1 an admitted write
touches its key.  When the check fails the condition propagates to the
caller with no rollback of the insertion or of the evictions. -/
def ordered_map_with_exceptions.insert {K : Type} [DecidableEq K] (k : K) (size : Nat)
    (s : om_state K) : om_state K × Except om_error Bool :=
  if k ∈ s.entries.map Prod.fst then
    match ordered_map_with_exceptions.check_memory_usage s with
    | (s2, true) => (s2, .ok false)
    | (s2, false) => (s2, .error .memory_limit)
  else
    match ordered_map_with_exceptions.check_memory_usage
        { s with entries := s.entries ++ [(k, size)],
                 allocated := s.allocated + size } with
    | (s2, true) => ({ s2 with lru := k :: s2.lru.erase k }, .ok true)
    | (s2, false) => (s2, .error .memory_limit)

/-! # Theorems -/

/-! ## Budget tracker theorems (C2) -/

theorem budget_apply_inv (op : budget_op) (s : budget_state) (h : budget_inv s) :
    budget_inv (budget_apply op s).1 := by
  obtain ⟨h0, h1⟩ := h
  cases op with
  | alloc size heap_ok =>
    simp only [budget_apply, memory_manager.allocate]
    split
    · exact ⟨h0, h1⟩
    · split
      · constructor
        · simp only [budget_state.total_allocated]
          positivity
        · simp only [budget_state.total_allocated, budget_state.memory_limit]
          omega
      · exact ⟨h0, h1⟩
  | dealloc size =>
    simp only [budget_apply, tracking_allocator.deallocate]
    split
    · constructor
      · simp only [budget_state.total_allocated]
        omega
      · simp only [budget_state.total_allocated, budget_state.memory_limit]
        omega
    · exact ⟨by simp, by simp only [budget_state.total_allocated,
        budget_state.memory_limit]; positivity⟩

theorem budget_run_inv (limit : Nat) (ops : List budget_op) :
    budget_inv (budget_run limit ops) := by
  suffices h : ∀ s : budget_state, budget_inv s →
      budget_inv (ops.foldl (fun s op => (budget_apply op s).1) s) by
    exact h ⟨limit, 0⟩ ⟨le_refl 0, by simp⟩
  induction ops with
  | nil => intro s hs; exact hs
  | cons op rest ih =>
    intro s hs
    exact ih _ (budget_apply_inv op s hs)

/-- C2: for every sequence of allocate/deallocate operations on the budget
tracker, the recorded byte count stays non-negative and within the ceiling
after every operation (in particular after every successful one), and a
deallocation of more bytes than are recorded saturates the counter at
exactly zero. -/
theorem C2_budget_invariant (limit : Nat) (ops : List budget_op) :
    (0 ≤ (budget_run limit ops).total_allocated ∧
      (budget_run limit ops).total_allocated ≤ (budget_run limit ops).memory_limit) ∧
    (∀ size : Nat, (budget_run limit ops).total_allocated < size →
      (tracking_allocator.deallocate size (budget_run limit ops)).total_allocated = 0) := by
  refine ⟨budget_run_inv limit ops, ?_⟩
  intro size hlt
  simp only [tracking_allocator.deallocate]
  rw [if_neg]
  omega

/-! ## Guarded iterator theorems (C9) -/

theorem ts_iterator.check_validity_of_invalid (it : ts_iterator) (h : it.valid = false) :
    it.check_validity = .error .invalid_iterator := by
  simp [ts_iterator.check_validity, h]

theorem ts_iterator.eq_op_error_left (it other : ts_iterator) (h : it.valid = false) :
    ts_iterator.eq_op it other = .error .invalid_iterator := by
  simp [ts_iterator.eq_op, ts_iterator.check_validity_of_invalid it h]

theorem ts_iterator.eq_op_error_right (it other : ts_iterator) (h : other.valid = false) :
    ts_iterator.eq_op it other = .error .invalid_iterator := by
  simp only [ts_iterator.eq_op, ts_iterator.check_validity_of_invalid other h]
  cases hv : it.check_validity with
  | error e =>
    have : e = .invalid_iterator := by
      simp only [ts_iterator.check_validity] at hv
      split at hv
      · exact absurd hv (by simp)
      · exact (Except.error.injEq _ _).mp hv.symm |>.symm
    simp [this]
  | ok u => simp

theorem ts_iterator.lt_op_error_left (it other : ts_iterator) (h : it.valid = false) :
    ts_iterator.lt_op it other = .error .invalid_iterator := by
  simp [ts_iterator.lt_op, ts_iterator.check_validity_of_invalid it h]

theorem ts_iterator.lt_op_error_right (it other : ts_iterator) (h : other.valid = false) :
    ts_iterator.lt_op it other = .error .invalid_iterator := by
  simp only [ts_iterator.lt_op, ts_iterator.check_validity_of_invalid other h]
  cases hv : it.check_validity with
  | error e =>
    have : e = .invalid_iterator := by
      simp only [ts_iterator.check_validity] at hv
      split at hv
      · exact absurd hv (by simp)
      · exact (Except.error.injEq _ _).mp hv.symm |>.symm
    simp [this]
  | ok u => simp

/-- C9: every dereference, member access, increment, decrement,
comparison, distance or offset operation performed on an Invalidated
`thread_safe_iterator` fails with the invalid-iterator condition (it does
not reach the underlying iterator), and moving from a Valid instance
leaves the moved-to instance Valid and the moved-from instance
Invalidated. -/
theorem C9_invalidated_iterator_safety :
    (∀ (op : iter_op) (it : ts_iterator), it.valid = false →
      thread_safe_iterator_apply op it = .error .invalid_iterator) ∧
    (∀ it : ts_iterator, it.valid = true →
      (ts_iterator.move_from it).1.valid = true ∧
        (ts_iterator.move_from it).2.valid = false) := by
  constructor
  · intro op it h
    cases op <;>
      simp [thread_safe_iterator_apply, ts_iterator.check_validity_of_invalid it h,
        ts_iterator.eq_op_error_left it _ h, ts_iterator.lt_op_error_left it _ h,
        ts_iterator.lt_op_error_right _ it h]
  · intro it h
    exact ⟨h, rfl⟩

/-- C9 witness: a concrete invalidated iterator fails a dereference, and a
concrete valid iterator moves as described. -/
theorem C9_invalidated_iterator_safety_witness :
    thread_safe_iterator_apply .deref ⟨0, false⟩ = .error .invalid_iterator ∧
    (ts_iterator.move_from ⟨5, true⟩).1.valid = true ∧
    (ts_iterator.move_from ⟨5, true⟩).2.valid = false := by
  refine ⟨C9_invalidated_iterator_safety.1 .deref ⟨0, false⟩ rfl, ?_, ?_⟩
  · exact (C9_invalidated_iterator_safety.2 ⟨5, true⟩ rfl).1
  · exact (C9_invalidated_iterator_safety.2 ⟨5, true⟩ rfl).2

/-! ## Checksum-verified read theorems (C10) -/

theorem with_retry_det_eq {A : Type} (p : net_error → Bool) (n : Nat)
    (r : Except net_error A) : with_retry_det p n r = r := by
  induction n with
  | zero => cases r <;> rfl
  | succ n ih =>
    cases r with
    | ok v => rfl
    | error e =>
      show (if p e then with_retry_det p n (.error e) else .error e) = _
      split
      · exact ih
      · rfl

/-- C10: a received buffer whose checksum verifies but whose byte length
differs from the serialized size of the target type is rejected by the
checksum-verified deserialization with the data-integrity condition; no
value is produced. -/
theorem C10_length_mismatch_rejected (max_retries sizeof_t expected_crc : Nat)
    (buffer : List Nat)
    (hcrc : crc32_checksum.calculate buffer = expected_crc)
    (hlen : buffer.length ≠ sizeof_t) :
    safe_deserializer.deserialize_with_crc max_retries sizeof_t expected_crc buffer
      = .error .data_integrity := by
  unfold safe_deserializer.deserialize_with_crc
  rw [with_retry_det_eq]
  unfold safe_deserializer.deserialize_attempt
  rw [if_neg]
  · unfold safe_deserializer.deserialize_from_buffer
    rw [if_pos hlen]
  · simp [crc32_checksum.verify, hcrc]

/-- C10 witness: the two-byte buffer `[1, 2]` with its correct checksum
and a four-byte target type is rejected with the data-integrity
condition. -/
theorem C10_length_mismatch_rejected_witness :
    safe_deserializer.deserialize_with_crc 3 4 (crc32_checksum.calculate [1, 2]) [1, 2]
      = .error .data_integrity :=
  C10_length_mismatch_rejected 3 4 (crc32_checksum.calculate [1, 2]) [1, 2] rfl (by decide)

/-! ## Fragmentation detector theorems (C4) -/

theorem frag_step_alloc10 :
    frag_apply (.record_alloc 10) ⟨20, 1, 0, 100, 0, false⟩ = ⟨20, 1, 10, 100, 1, true⟩ := by
  have hflag :
      decide (memory_fragmentation_detector.fragmentation_rate
        ⟨20, 1, 10, 100, 1, false⟩ > (20 : Rat)) = true := by
    rw [decide_eq_true_eq]
    unfold memory_fragmentation_detector.fragmentation_rate
    norm_num
  show memory_fragmentation_detector.check_fragmentation ⟨20, 1, 10, 100, 1, false⟩ = _
  unfold memory_fragmentation_detector.check_fragmentation
  rw [hflag]

theorem frag_step_alloc1000 :
    frag_apply (.record_alloc 1000) ⟨20, 1, 10, 100, 1, true⟩
      = ⟨20, 1, 1010, 100, 2, false⟩ := by
  have hflag :
      decide (memory_fragmentation_detector.fragmentation_rate
        ⟨20, 1, 1010, 100, 2, true⟩ > (20 : Rat)) = false := by
    rw [decide_eq_false_iff_not]
    unfold memory_fragmentation_detector.fragmentation_rate
    norm_num
  show memory_fragmentation_detector.check_fragmentation ⟨20, 1, 1010, 100, 2, true⟩ = _
  unfold memory_fragmentation_detector.check_fragmentation
  rw [hflag]

/-- C4 counterexample: with threshold 20 and sampling interval 1, the
trace deallocate-100, allocate-10 raises the flag (sampled rate about 91),
but the further allocation of 1000 bytes samples a rate of about 9 and
clears the flag although no defragmentation/reset call occurred — the
flag does not latch until reset. -/
theorem C4_counterexample :
    (frag_run 20 1 [.record_dealloc 100, .record_alloc 10]).needs_defragmentation = true ∧
    (frag_run 20 1 [.record_dealloc 100, .record_alloc 10,
      .record_alloc 1000]).needs_defragmentation = false := by
  have h0 : frag_apply (.record_dealloc 100) ⟨20, 1, 0, 0, 0, false⟩
      = ⟨20, 1, 0, 100, 0, false⟩ := rfl
  constructor
  · show (List.foldl (fun s op => frag_apply op s) ⟨20, 1, 0, 0, 0, false⟩
      [.record_dealloc 100, .record_alloc 10]).needs_defragmentation = true
    rw [List.foldl_cons, h0, List.foldl_cons, frag_step_alloc10]
    rfl
  · show (List.foldl (fun s op => frag_apply op s) ⟨20, 1, 0, 0, 0, false⟩
      [.record_dealloc 100, .record_alloc 10, .record_alloc 1000]).needs_defragmentation = false
    rw [List.foldl_cons, h0, List.foldl_cons, frag_step_alloc10, List.foldl_cons,
      frag_step_alloc1000]
    rfl

/-- C4 (amended): the flag becomes true only when a sample — taken on a
`record_allocation` whose bumped operation count hits the sampling
interval — finds the rate above the threshold; it survives deallocations
and non-sampling allocations; the explicit reset clears it; but (per the
counterexample) a later below-threshold sample also clears it, so the
flag does not latch until reset. -/
theorem C4_flag_transitions :
    (∀ (s : frag_state) (op : frag_op), s.needs_defragmentation = false →
      (frag_apply op s).needs_defragmentation = true →
      ∃ size, op = .record_alloc size ∧
        (s.allocation_count + 1) % s.check_interval = 0 ∧
        s.fragmentation_threshold <
          memory_fragmentation_detector.fragmentation_rate
            { s with total_allocated := s.total_allocated + size,
                     allocation_count := s.allocation_count + 1 }) ∧
    (∀ (s : frag_state) (size : Nat), s.needs_defragmentation = true →
      (frag_apply (.record_dealloc size) s).needs_defragmentation = true) ∧
    (∀ (s : frag_state) (size : Nat), s.needs_defragmentation = true →
      (s.allocation_count + 1) % s.check_interval ≠ 0 →
      (frag_apply (.record_alloc size) s).needs_defragmentation = true) ∧
    (∀ s : frag_state, (frag_apply .reset_flag s).needs_defragmentation = false) := by
  refine ⟨?_, ?_, ?_, ?_⟩
  · intro s op hfalse htrue
    cases op with
    | record_alloc size =>
      refine ⟨size, rfl, ?_⟩
      simp only [frag_apply, memory_fragmentation_detector.record_allocation] at htrue
      by_cases hmod : (s.allocation_count + 1) % s.check_interval = 0
      · rw [if_pos hmod] at htrue
        simp only [memory_fragmentation_detector.check_fragmentation,
          decide_eq_true_eq] at htrue
        exact ⟨hmod, htrue⟩
      · rw [if_neg hmod] at htrue
        exact absurd htrue (by simp [hfalse])
    | record_dealloc size =>
      simp only [frag_apply, memory_fragmentation_detector.record_deallocation] at htrue
      exact absurd htrue (by simp [hfalse])
    | reset_flag =>
      simp only [frag_apply,
        memory_fragmentation_detector.reset_defragmentation_flag] at htrue
      exact absurd htrue (by simp)
  · intro s size htrue
    simpa [frag_apply, memory_fragmentation_detector.record_deallocation] using htrue
  · intro s size htrue hmod
    simpa [frag_apply, memory_fragmentation_detector.record_allocation, hmod] using htrue
  · intro s
    rfl

/-- C4 witness: the transition law applied at concrete states — an
above-threshold sampling allocation raises the flag, a deallocation
preserves it, and a reset clears it. -/
theorem C4_flag_transitions_witness :
    (∃ size, (frag_op.record_alloc 10 : frag_op) = .record_alloc size ∧
      ((0 : Nat) + 1) % 1 = 0 ∧
      (20 : Rat) <
        memory_fragmentation_detector.fragmentation_rate ⟨20, 1, 0 + 10, 100, 0 + 1, false⟩) ∧
    (frag_apply (.record_dealloc 7) ⟨20, 1, 50, 100, 3, true⟩).needs_defragmentation = true ∧
    (frag_apply .reset_flag ⟨20, 1, 50, 100, 3, true⟩).needs_defragmentation = false := by
  refine ⟨?_, ?_, ?_⟩
  · simpa using C4_flag_transitions.1 ⟨20, 1, 0, 100, 0, false⟩ (.record_alloc 10) rfl
      (by rw [frag_step_alloc10])
  · exact C4_flag_transitions.2.1 ⟨20, 1, 50, 100, 3, true⟩ 7 rfl
  · exact C4_flag_transitions.2.2.2 ⟨20, 1, 50, 100, 3, true⟩

/-! ## Retry backoff theorems (C5) -/

theorem with_retry_go_delay (p : net_error → Bool) (max_retries : Nat)
    (outcomes : List attempt_outcome) :
    ∀ (retry_count current_delay i d : Nat),
      (with_retry_go p max_retries outcomes retry_count current_delay).1[i]? = some d →
      d = current_delay * 2 ^ i := by
  induction outcomes with
  | nil => intro rc cur i d h; simp [with_retry_go] at h
  | cons o rest ih =>
    intro rc cur i d h
    cases o with
    | ok => simp [with_retry_go] at h
    | fail e =>
      simp only [with_retry_go] at h
      split at h
      · simp at h
      · cases i with
        | zero =>
          simp only [List.getElem?_cons_zero, Option.some.injEq] at h
          omega
        | succ i =>
          simp only [List.getElem?_cons_succ] at h
          have := ih (rc + 1) (cur * 2) i d h
          subst this
          ring

/-- C5 counterexample: under the default policy (`max_retries = 3`,
`initial_delay = 1000`, retry-everything predicate) a call failing
retryably on every attempt sleeps 1000, 2000 and 4000 ms; the delay
before retry attempt 2 is 4000, not the `initial_delay * (2 + 1) = 3000`
the claim derives from `get_retry_delay` — `with_retry` doubles the delay
instead of growing it linearly. -/
theorem C5_counterexample :
    (with_retry (fun _ => true) 3 1000
      [.fail .timeout, .fail .timeout, .fail .timeout, .ok]).1 = [1000, 2000, 4000] ∧
    network_retry_strategy.get_retry_delay 1000 2 = 3000 ∧
    (4000 : Nat) ≠ 3000 := by
  refine ⟨rfl, rfl, by decide⟩

/-- C5 (amended): the delay slept by `with_retry` before retry attempt
`i` (counting from 0) is `initial_delay * 2 ^ i` — exponential doubling,
not the linear `initial_delay * (i + 1)`; the strategy's
`get_retry_delay` does compute the linear formula, but the call sites
use it only to obtain the initial delay (`get_retry_delay(0)`). -/
theorem C5_backoff_doubles (p : net_error → Bool)
    (max_retries initial_delay : Nat) (outcomes : List attempt_outcome) (i d : Nat)
    (h : (with_retry p max_retries initial_delay outcomes).1[i]? = some d) :
    d = initial_delay * 2 ^ i ∧
      network_retry_strategy.get_retry_delay initial_delay i = initial_delay * (i + 1) :=
  ⟨with_retry_go_delay p max_retries outcomes 0 initial_delay i d h, rfl⟩

/-- C5 witness: in the concrete all-failing run, the delay before retry
attempt 2 is 4000 = 1000 * 2 ^ 2. -/
theorem C5_backoff_doubles_witness :
    (with_retry (fun _ => true) 3 1000
      [.fail .timeout, .fail .timeout, .fail .timeout, .ok]).1[2]? = some 4000 ∧
    4000 = 1000 * 2 ^ 2 ∧
      network_retry_strategy.get_retry_delay 1000 2 = 1000 * (2 + 1) := by
  refine ⟨rfl, ?_, ?_⟩
  · exact (C5_backoff_doubles (fun _ => true) 3 1000
      [.fail .timeout, .fail .timeout, .fail .timeout, .ok] 2 4000 rfl).1
  · exact (C5_backoff_doubles (fun _ => true) 3 1000
      [.fail .timeout, .fail .timeout, .fail .timeout, .ok] 2 4000 rfl).2

/-! ## Retry exhaustion theorems (C6) -/

/-- C6 counterexample: under the strategy predicate, a call that fails
retryably on every attempt surfaces, after the retry budget is spent, the
last cause itself (`timeout`) and not a retry-exhausted error; and
`network_serializer::execute_with_retry` returns the very same
retry-exhausted result for two runs whose last causes differ, so its
retry-exhausted error wraps no cause. -/
theorem C6_counterexample :
    (with_retry (fun e => network_retry_strategy.should_retry 3 e 0) 3 1000
      [.fail .timeout, .fail .timeout, .fail .timeout, .fail .timeout]).2
        = .failed .timeout ∧
    net_error.timeout ≠ net_error.max_retries_exceeded ∧
    network_serializer.execute_with_retry 3
        [.fail .timeout, .fail .timeout, .fail .timeout] 0
      = network_serializer.execute_with_retry 3
        [.fail .timeout, .fail .timeout, .fail (.sys_error errno_EINTR)] 0 ∧
    net_error.timeout ≠ net_error.sys_error errno_EINTR := by
  refine ⟨rfl, by decide, rfl, by decide⟩

theorem with_retry_go_exhaust (p : net_error → Bool) (max_retries : Nat)
    (e : net_error) : ∀ (outs : List attempt_outcome) (retry_count current_delay : Nat),
    retry_count + outs.length = max_retries →
    (∀ o ∈ outs, ∃ e2, o = .fail e2 ∧ p e2 = true) →
    (with_retry_go p max_retries (outs ++ [.fail e]) retry_count current_delay).2
      = .failed e := by
  intro outs
  induction outs with
  | nil =>
    intro rc cur hlen _
    simp only [List.length_nil, Nat.add_zero] at hlen
    simp [with_retry_go, hlen]
  | cons o rest ih =>
    intro rc cur hlen hall
    obtain ⟨e2, rfl, hp⟩ := hall o (by simp)
    simp only [List.length_cons] at hlen
    have hlt : rc < max_retries := by omega
    simp only [List.cons_append, with_retry_go]
    rw [if_neg (by simp [hp]; omega)]
    exact ih (rc + 1) (cur * 2) (by omega) (fun o ho => hall o (by simp [ho]))

theorem execute_with_retry_exhaust (max_retries : Nat) :
    ∀ (outs : List attempt_outcome) (retry_count : Nat), outs ≠ [] →
    retry_count + outs.length = max_retries →
    (∀ o ∈ outs, ∃ e2, o = .fail e2 ∧ network_serializer.recoverable e2 = true) →
    (network_serializer.execute_with_retry max_retries outs retry_count).2
      = .failed .max_retries_exceeded := by
  intro outs
  induction outs with
  | nil => intro rc hne; exact absurd rfl hne
  | cons o rest ih =>
    intro rc _ hlen hall
    obtain ⟨e2, rfl, hrec⟩ := hall o (by simp)
    simp only [List.length_cons] at hlen
    simp only [network_serializer.execute_with_retry, hrec]
    rw [if_neg (by simp)]
    cases rest with
    | nil =>
      rw [if_pos (by simp at hlen; omega)]
    | cons o2 rest2 =>
      rw [if_neg (by simp at hlen ⊢; omega)]
      exact ih (rc + 1) (by simp) (by simp at hlen ⊢; omega)
        (fun o ho => hall o (by simp [ho]))

/-- C6 (amended): after the retry budget is spent on retryable failures,
`with_retry` rethrows the last underlying cause itself (no retry-exhausted
wrapper), while `network_serializer::execute_with_retry` surfaces a
`network_max_retries_exception` that carries no reference to the last
cause; in both, a failure classified as fatal propagates immediately,
with no sleep and no retry attempt consumed. -/
theorem C6_exhaustion_and_fatal :
    (∀ (p : net_error → Bool) (max_retries delay : Nat) (outs : List attempt_outcome)
      (e : net_error), outs.length = max_retries →
      (∀ o ∈ outs, ∃ e2, o = .fail e2 ∧ p e2 = true) →
      (with_retry p max_retries delay (outs ++ [.fail e])).2 = .failed e) ∧
    (∀ (max_retries : Nat) (outs : List attempt_outcome), outs ≠ [] →
      outs.length = max_retries →
      (∀ o ∈ outs, ∃ e2, o = .fail e2 ∧ network_serializer.recoverable e2 = true) →
      (network_serializer.execute_with_retry max_retries outs 0).2
        = .failed .max_retries_exceeded) ∧
    (∀ (p : net_error → Bool) (max_retries delay : Nat) (e : net_error)
      (rest : List attempt_outcome), p e = false →
      with_retry p max_retries delay (.fail e :: rest) = ([], .failed e)) ∧
    (∀ (max_retries retry_count : Nat) (e : net_error) (rest : List attempt_outcome),
      network_serializer.recoverable e = false →
      network_serializer.execute_with_retry max_retries (.fail e :: rest) retry_count
        = (0, .failed e)) := by
  refine ⟨?_, ?_, ?_, ?_⟩
  · intro p max_retries delay outs e hlen hall
    exact with_retry_go_exhaust p max_retries e outs 0 delay (by omega) hall
  · intro max_retries outs hne hlen hall
    exact execute_with_retry_exhaust max_retries outs 0 hne (by omega) hall
  · intro p max_retries delay e rest hp
    simp [with_retry, with_retry_go, hp]
  · intro max_retries retry_count e rest hrec
    simp [network_serializer.execute_with_retry, hrec]

/-- C6 witness: the amended behavior at concrete runs — exhaustion after
three retryable timeouts surfaces the cause itself from `with_retry` and
the bare retry-exhausted error from `execute_with_retry`; a fatal
system error (`ECONNREFUSED` = 111) propagates at once from both. -/
theorem C6_exhaustion_and_fatal_witness :
    (with_retry (fun e => network_retry_strategy.should_retry 3 e 0) 3 1000
      ([.fail .timeout, .fail .timeout, .fail .timeout] ++ [.fail .timeout])).2
        = .failed .timeout ∧
    (network_serializer.execute_with_retry 3
      [.fail .timeout, .fail .timeout, .fail .timeout] 0).2
        = .failed .max_retries_exceeded ∧
    with_retry (fun e => network_retry_strategy.should_retry 3 e 0) 3 1000
      [.fail .data_integrity] = ([], .failed .data_integrity) ∧
    network_serializer.execute_with_retry 3 [.fail (.sys_error 111)] 0
      = (0, .failed (.sys_error 111)) := by
  refine ⟨?_, ?_, ?_, ?_⟩
  · refine C6_exhaustion_and_fatal.1 (fun e => network_retry_strategy.should_retry 3 e 0)
      3 1000 [.fail .timeout, .fail .timeout, .fail .timeout] .timeout (by decide) ?_
    intro o ho
    simp only [List.mem_cons, List.not_mem_nil, or_false] at ho
    rcases ho with h | h | h <;> exact ⟨.timeout, h, rfl⟩
  · refine C6_exhaustion_and_fatal.2.1 3 [.fail .timeout, .fail .timeout, .fail .timeout]
      (by decide) (by decide) ?_
    intro o ho
    simp only [List.mem_cons, List.not_mem_nil, or_false] at ho
    rcases ho with h | h | h <;> exact ⟨.timeout, h, rfl⟩
  · exact C6_exhaustion_and_fatal.2.2.1 (fun e => network_retry_strategy.should_retry 3 e 0)
      3 1000 .data_integrity [] (by decide)
  · exact C6_exhaustion_and_fatal.2.2.2 3 0 (.sys_error 111) [] (by decide)

/-! ## Write-path atomicity theorems (C1) -/

/-- C1 counterexample: with ceiling 10 and five 1-byte entries, inserting
a 100-byte element raises the memory-limit condition after eviction fails
— and the container now holds exactly the new element (the five old ones
were evicted) with 100 budget bytes recorded, not the pre-call contents
and budget: the failed write did mutate both. -/
theorem C1_counterexample :
    ordered_map_with_exceptions.insert 99 100
      (⟨[(1, 1), (2, 1), (3, 1), (4, 1), (5, 1)], 5, 10, [5, 4, 3, 2, 1]⟩ : om_state Nat)
      = (⟨[(99, 100)], 100, 10, []⟩, .error .memory_limit) ∧
    (⟨[(99, 100)], 100, 10, ([] : List Nat)⟩ : om_state Nat)
      ≠ ⟨[(1, 1), (2, 1), (3, 1), (4, 1), (5, 1)], 5, 10, [5, 4, 3, 2, 1]⟩ := by
  refine ⟨rfl, by decide⟩

theorem list_getLast?_mem {A : Type} : ∀ (l : List A) (a : A), l.getLast? = some a → a ∈ l := by
  intro l
  induction l with
  | nil => intro a h; simp at h
  | cons x rest ih =>
    intro a h
    cases rest with
    | nil => simp_all
    | cons y rest2 =>
      rw [List.getLast?_cons_cons] at h
      exact List.mem_cons_of_mem x (ih a h)

theorem evict_lru_elements_false {K : Type} [DecidableEq K] :
    ∀ (n : Nat) (s s2 : om_state K),
      memory_manager.evict_lru_elements n s = (s2, false) →
      s2.ceiling < s2.allocated := by
  intro n
  induction n with
  | zero =>
    intro s s2 h
    simp only [memory_manager.evict_lru_elements, Prod.mk.injEq] at h
    obtain ⟨rfl, h2⟩ := h
    simpa using h2
  | succ n ih =>
    intro s s2 h
    simp only [memory_manager.evict_lru_elements] at h
    split at h
    · exact absurd h (by simp)
    · split at h
      · obtain ⟨rfl, -⟩ := Prod.mk.injEq .. |>.mp h
        omega
      · exact ih _ s2 h

theorem evict_lru_elements_keeps {K : Type} [DecidableEq K] (k : K) :
    ∀ (n : Nat) (s s2 : om_state K) (b : Bool),
      memory_manager.evict_lru_elements n s = (s2, b) →
      k ∈ s.entries.map Prod.fst → k ∉ s.lru →
      k ∈ s2.entries.map Prod.fst := by
  intro n
  induction n with
  | zero =>
    intro s s2 b h hk _
    simp only [memory_manager.evict_lru_elements, Prod.mk.injEq] at h
    obtain ⟨rfl, -⟩ := h
    exact hk
  | succ n ih =>
    intro s s2 b h hk hnl
    simp only [memory_manager.evict_lru_elements] at h
    split at h
    · obtain ⟨rfl, -⟩ := Prod.mk.injEq .. |>.mp h
      exact hk
    · split at h
      · obtain ⟨rfl, -⟩ := Prod.mk.injEq .. |>.mp h
        exact hk
      · rename_i kq hlast
        refine ih _ s2 b h ?_ ?_
        · simp only [List.mem_map] at hk ⊢
          obtain ⟨p, hp, hpk⟩ := hk
          refine ⟨p, ?_, hpk⟩
          have hkq : kq ∈ s.lru := list_getLast?_mem s.lru kq hlast
          have hne : p.1 ≠ kq := by
            intro hcontra
            exact hnl (hpk ▸ hcontra ▸ hkq)
          simp [List.mem_filter, hp, hne]
        · intro hcontra
          exact hnl ((List.dropLast_sublist s.lru).subset hcontra)

theorem check_memory_usage_false {K : Type} [DecidableEq K] (s s2 : om_state K)
    (h : ordered_map_with_exceptions.check_memory_usage s = (s2, false)) :
    s2.ceiling < s2.allocated := by
  unfold ordered_map_with_exceptions.check_memory_usage at h
  split at h
  · exact absurd h (by simp)
  · exact evict_lru_elements_false 10 s s2 h

theorem check_memory_usage_keeps {K : Type} [DecidableEq K] (k : K) (s s2 : om_state K)
    (b : Bool) (h : ordered_map_with_exceptions.check_memory_usage s = (s2, b))
    (hk : k ∈ s.entries.map Prod.fst) (hnl : k ∉ s.lru) :
    k ∈ s2.entries.map Prod.fst := by
  unfold ordered_map_with_exceptions.check_memory_usage at h
  split at h
  · obtain ⟨rfl, -⟩ := Prod.mk.injEq .. |>.mp h
    exact hk
  · exact evict_lru_elements_keeps k 10 s s2 b h hk hnl

/-- C1 (amended): when bounded LRU eviction cannot free enough budget the
memory-limit condition surfaces, but the attempted write is not rolled
back: the freshly inserted element is still in the container and the
recorded budget still exceeds the ceiling (the insertion and any
evictions performed along the way are kept). -/
theorem C1_failed_write_not_rolled_back {K : Type} [DecidableEq K] (k : K) (size : Nat)
    (s : om_state K) (hfresh : k ∉ s.entries.map Prod.fst) (hnl : k ∉ s.lru)
    (hfail : (ordered_map_with_exceptions.insert k size s).2 = .error .memory_limit) :
    k ∈ (ordered_map_with_exceptions.insert k size s).1.entries.map Prod.fst ∧
    (ordered_map_with_exceptions.insert k size s).1.ceiling <
      (ordered_map_with_exceptions.insert k size s).1.allocated := by
  unfold ordered_map_with_exceptions.insert at hfail ⊢
  rw [if_neg hfresh] at hfail ⊢
  rcases hchk : ordered_map_with_exceptions.check_memory_usage
      { s with entries := s.entries ++ [(k, size)],
               allocated := s.allocated + size } with ⟨s2, b⟩
  rw [hchk] at hfail
  cases b with
  | true => exact Except.noConfusion hfail
  | false =>
    refine ⟨?_, ?_⟩
    · exact check_memory_usage_keeps k _ s2 false hchk (by simp) hnl
    · exact check_memory_usage_false _ s2 hchk

/-- C1 witness: the non-rollback characterization applied at the concrete
counterexample state. -/
theorem C1_failed_write_not_rolled_back_witness :
    (99 : Nat) ∈ (ordered_map_with_exceptions.insert 99 100
      (⟨[(1, 1), (2, 1), (3, 1), (4, 1), (5, 1)], 5, 10,
        [5, 4, 3, 2, 1]⟩ : om_state Nat)).1.entries.map Prod.fst ∧
    (ordered_map_with_exceptions.insert 99 100
      (⟨[(1, 1), (2, 1), (3, 1), (4, 1), (5, 1)], 5, 10,
        [5, 4, 3, 2, 1]⟩ : om_state Nat)).1.ceiling <
      (ordered_map_with_exceptions.insert 99 100
        (⟨[(1, 1), (2, 1), (3, 1), (4, 1), (5, 1)], 5, 10,
          [5, 4, 3, 2, 1]⟩ : om_state Nat)).1.allocated :=
  C1_failed_write_not_rolled_back 99 100
    ⟨[(1, 1), (2, 1), (3, 1), (4, 1), (5, 1)], 5, 10, [5, 4, 3, 2, 1]⟩
    (by decide) (by decide) rfl

/-! ## Snapshot transfer roundtrip theorems (C8) -/

theorem read_nat_field_env {K V : Type} (enc : wire_field K V → List Nat) (n : Nat)
    (rest : List (wire_envelope K V)) :
    safe_deserializer.read_nat_field enc
      (safe_serializer.serialize_with_crc enc (.nat_field n) :: rest) = .ok (n, rest) := by
  simp [safe_deserializer.read_nat_field, safe_serializer.serialize_with_crc,
    crc32_checksum.verify]

theorem read_elem_field_env {K V : Type} (enc : wire_field K V → List Nat) (kv : K × V)
    (rest : List (wire_envelope K V)) :
    safe_deserializer.read_elem_field enc
      (safe_serializer.serialize_with_crc enc (.elem_field kv) :: rest) = .ok (kv, rest) := by
  simp [safe_deserializer.read_elem_field, safe_serializer.serialize_with_crc,
    crc32_checksum.verify]

theorem read_elems_of_serialized {K V : Type} [DecidableEq K]
    (enc : wire_field K V → List Nat) :
    ∀ (l : List (K × V)) (m : model_map K V),
      (m.entries.map Prod.fst ++ l.map Prod.fst).Nodup →
      ordered_map_with_exceptions.read_elems enc l.length
        (l.map (fun kv => safe_serializer.serialize_with_crc enc (.elem_field kv))) m
        = .ok { m with entries := m.entries ++ l } := by
  intro l
  induction l with
  | nil =>
    intro m _
    simp [ordered_map_with_exceptions.read_elems]
  | cons kv rest ih =>
    intro m hnd
    have hfresh : kv.1 ∉ m.entries.map Prod.fst := by
      intro hmem
      rcases List.nodup_append.mp hnd with ⟨-, -, hdisj⟩
      exact hdisj hmem (by simp)
    simp only [List.map_cons, List.length_cons, ordered_map_with_exceptions.read_elems,
      read_elem_field_env]
    have hins : ordered_map.insert_entry m kv = { m with entries := m.entries ++ [kv] } := by
      simp [ordered_map.insert_entry, hfresh]
    rw [hins]
    have hnd2 : (({ m with entries := m.entries ++ [kv] } : model_map K V).entries.map
        Prod.fst ++ rest.map Prod.fst).Nodup := by
      simpa using hnd
    rw [ih { m with entries := m.entries ++ [kv] } hnd2]
    simp

/-- C8: serializing a map (size, max_size, bucket_count, then every
element in iteration order, each field checksummed) and deserializing the
stream into another map reproduces the map exactly — same key set, same
mapped values, same iteration order (and the reserved bucket count). -/
theorem C8_serialize_deserialize_roundtrip {K V : Type} [DecidableEq K]
    (enc : wire_field K V → List Nat) (max_size_val : Nat) (m : model_map K V)
    (hnodup : (m.entries.map Prod.fst).Nodup) :
    ordered_map_with_exceptions.deserialize_safe enc
      (ordered_map_with_exceptions.serialize_safe enc max_size_val m) = .ok m := by
  unfold ordered_map_with_exceptions.serialize_safe
    ordered_map_with_exceptions.deserialize_safe
  simp only [read_nat_field_env]
  rw [read_elems_of_serialized enc m.entries
    ({ entries := [], bucket_count := m.bucket_count } : model_map K V) (by simpa using hnodup)]
  cases m
  simp

/-- C8 witness: the roundtrip applied to a concrete two-element map. -/
theorem C8_serialize_deserialize_roundtrip_witness :
    ordered_map_with_exceptions.deserialize_safe (fun _ => [])
      (ordered_map_with_exceptions.serialize_safe (fun _ => []) 100
        (⟨[(1, 10), (2, 20)], 8⟩ : model_map Nat Nat))
      = .ok ⟨[(1, 10), (2, 20)], 8⟩ :=
  C8_serialize_deserialize_roundtrip (fun _ => []) 100 ⟨[(1, 10), (2, 20)], 8⟩ (by decide)

/-! ## CRC32 single-byte-corruption theorems (C7)

The LFSR step of `crc32_checksum::calculate` is injective on 32-bit
states (bit 31 of the output records the input parity, the rest is the
shifted state), so distinct accumulator states stay distinct through any
byte suffix, and two buffers differing in one byte get different
checksums. -/

theorem nat_shr1_eq (c : Nat) : c >>> 1 = c / 2 := by
  rw [Nat.shiftRight_eq_div_pow, pow_one]

theorem crc32_step_lt (c : Nat) (h : c < 2 ^ 32) : crc32_step c < 2 ^ 32 := by
  unfold crc32_step
  apply Nat.xor_lt_two_pow
  · rw [nat_shr1_eq]
    omega
  · split
    · norm_num [crc32_poly]
    · positivity

theorem crc32_step_msb (c : Nat) (h : c < 2 ^ 32) :
    (crc32_step c).testBit 31 = decide (c % 2 = 1) := by
  unfold crc32_step
  rw [Nat.testBit_xor]
  have h1 : (c >>> 1).testBit 31 = false := by
    apply Nat.testBit_lt_two_pow
    rw [nat_shr1_eq]
    have h31 : (2 : Nat) ^ 31 = 2147483648 := by norm_num
    have h32 : (2 : Nat) ^ 32 = 4294967296 := by norm_num
    omega
  rw [h1]
  by_cases hpar : c % 2 = 1
  · rw [if_pos hpar]
    simp only [hpar, decide_eq_true_eq, Bool.false_xor, decide_True]
    decide
  · rw [if_neg hpar]
    simp [hpar]

theorem crc32_step_inj (a b : Nat) (ha : a < 2 ^ 32) (hb : b < 2 ^ 32)
    (h : crc32_step a = crc32_step b) : a = b := by
  have hmsb := congrArg (fun x => x.testBit 31) h
  simp only [crc32_step_msb a ha, crc32_step_msb b hb] at hmsb
  have hpar : a % 2 = b % 2 := by
    have := decide_eq_decide.mp hmsb
    omega
  unfold crc32_step at h
  by_cases h1 : a % 2 = 1
  · rw [if_pos h1, if_pos (hpar ▸ h1)] at h
    have h2 := congrArg (fun x => x ^^^ crc32_poly) h
    simp only [Nat.xor_cancel_right] at h2
    rw [nat_shr1_eq, nat_shr1_eq] at h2
    omega
  · rw [if_neg h1, if_neg (fun hc => h1 (hpar ▸ hc))] at h
    simp only [Nat.xor_zero] at h
    rw [nat_shr1_eq, nat_shr1_eq] at h
    omega

theorem crc32_stepN_lt (n : Nat) : ∀ c : Nat, c < 2 ^ 32 → crc32_step^[n] c < 2 ^ 32 := by
  induction n with
  | zero => intro c h; simpa using h
  | succ n ih =>
    intro c h
    rw [Function.iterate_succ_apply]
    exact ih _ (crc32_step_lt c h)

theorem crc32_stepN_inj (n : Nat) : ∀ a b : Nat, a < 2 ^ 32 → b < 2 ^ 32 →
    crc32_step^[n] a = crc32_step^[n] b → a = b := by
  induction n with
  | zero => intro a b _ _ h; simpa using h
  | succ n ih =>
    intro a b ha hb h
    rw [Function.iterate_succ_apply, Function.iterate_succ_apply] at h
    exact crc32_step_inj a b ha hb
      (ih _ _ (crc32_step_lt a ha) (crc32_step_lt b hb) h)

theorem crc32_update_lt (c b : Nat) (hc : c < 2 ^ 32) (hb : b < 2 ^ 32) :
    crc32_update c b < 2 ^ 32 :=
  crc32_stepN_lt 8 _ (Nat.xor_lt_two_pow hc hb)

theorem crc32_update_inj_state (b c1 c2 : Nat) (hb : b < 2 ^ 32) (h1 : c1 < 2 ^ 32)
    (h2 : c2 < 2 ^ 32) (h : crc32_update c1 b = crc32_update c2 b) : c1 = c2 := by
  have hx : c1 ^^^ b = c2 ^^^ b :=
    crc32_stepN_inj 8 _ _ (Nat.xor_lt_two_pow h1 hb) (Nat.xor_lt_two_pow h2 hb) h
  have := congrArg (fun x => x ^^^ b) hx
  simpa only [Nat.xor_cancel_right] using this

theorem crc32_update_inj_byte (c b1 b2 : Nat) (hc : c < 2 ^ 32) (hb1 : b1 < 2 ^ 32)
    (hb2 : b2 < 2 ^ 32) (hne : b1 ≠ b2) : crc32_update c b1 ≠ crc32_update c b2 := by
  intro h
  have hx : c ^^^ b1 = c ^^^ b2 :=
    crc32_stepN_inj 8 _ _ (Nat.xor_lt_two_pow hc hb1) (Nat.xor_lt_two_pow hc hb2) h
  have := congrArg (fun x => c ^^^ x) hx
  simp only [Nat.xor_cancel_left] at this
  exact hne (by
    have h1 := congrArg (fun y => c ^^^ y) hx
    simpa only [Nat.xor_cancel_left] using h1)

theorem crc32_fold_lt : ∀ (l : List Nat) (c : Nat), c < 2 ^ 32 → (∀ x ∈ l, x < 2 ^ 32) →
    l.foldl crc32_update c < 2 ^ 32 := by
  intro l
  induction l with
  | nil => intro c hc _; simpa using hc
  | cons x rest ih =>
    intro c hc hl
    rw [List.foldl_cons]
    exact ih _ (crc32_update_lt c x hc (hl x (by simp)))
      (fun y hy => hl y (by simp [hy]))

theorem crc32_fold_inj : ∀ (l : List Nat) (c1 c2 : Nat), c1 < 2 ^ 32 → c2 < 2 ^ 32 →
    (∀ x ∈ l, x < 2 ^ 32) → c1 ≠ c2 →
    l.foldl crc32_update c1 ≠ l.foldl crc32_update c2 := by
  intro l
  induction l with
  | nil => intro c1 c2 _ _ _ hne; simpa using hne
  | cons x rest ih =>
    intro c1 c2 h1 h2 hl hne
    rw [List.foldl_cons, List.foldl_cons]
    have hx : x < 2 ^ 32 := hl x (by simp)
    refine ih _ _ (crc32_update_lt c1 x h1 hx) (crc32_update_lt c2 x h2 hx)
      (fun y hy => hl y (by simp [hy])) ?_
    intro hcontra
    exact hne (crc32_update_inj_state x c1 c2 hx h1 h2 hcontra)

theorem crc32_fold_set_ne : ∀ (l : List Nat) (i : Nat) (c : Nat), c < 2 ^ 32 →
    (∀ x ∈ l, x < 2 ^ 32) → ∀ (hi : i < l.length) (b : Nat), b < 2 ^ 32 →
    b ≠ l.get ⟨i, hi⟩ →
    (l.set i b).foldl crc32_update c ≠ l.foldl crc32_update c := by
  intro l
  induction l with
  | nil => intro i c _ _ hi; simp at hi
  | cons x rest ih =>
    intro i c hc hl hi b hb hne
    cases i with
    | zero =>
      simp only [List.set_cons_zero, List.foldl_cons]
      have hx : x < 2 ^ 32 := hl x (by simp)
      apply crc32_fold_inj rest _ _ (crc32_update_lt c b hc hb)
        (crc32_update_lt c x hc hx) (fun y hy => hl y (by simp [hy]))
      exact crc32_update_inj_byte c b x hc hb hx (by simpa using hne)
    | succ i =>
      simp only [List.set_cons_succ, List.foldl_cons]
      have hx : x < 2 ^ 32 := hl x (by simp)
      exact ih i (crc32_update c x) (crc32_update_lt c x hc hx)
        (fun y hy => hl y (by simp [hy])) (by simpa using hi) b hb (by simpa using hne)

theorem crc32_calculate_set_ne (l : List Nat) (i : Nat) (hi : i < l.length) (b : Nat)
    (hl : ∀ x ∈ l, x < 256) (hb : b < 256) (hne : b ≠ l.get ⟨i, hi⟩) :
    crc32_checksum.calculate (l.set i b) ≠ crc32_checksum.calculate l := by
  intro h
  have hl32 : ∀ x ∈ l, x < 2 ^ 32 := fun x hx => lt_trans (hl x hx) (by norm_num)
  have hinit : (0xFFFFFFFF : Nat) < 2 ^ 32 := by norm_num
  have hfold : (l.set i b).foldl crc32_update 0xFFFFFFFF = l.foldl crc32_update 0xFFFFFFFF := by
    have := congrArg (fun x => (0xFFFFFFFF : Nat) ^^^ x) h
    simpa only [crc32_checksum.calculate, Nat.xor_cancel_left] using this
  exact crc32_fold_set_ne l i 0xFFFFFFFF hinit hl32 hi b
    (lt_trans hb (by norm_num)) hne hfold

/-- C7: flipping any single byte of a payload after its CRC32 was
computed makes the checksum-verified read fail with the data-integrity
condition — a single-byte-corrupted payload is never accepted. -/
theorem C7_single_byte_flip_detected (payload : List Nat) (i : Nat)
    (hi : i < payload.length) (b : Nat) (hbytes : ∀ x ∈ payload, x < 256) (hb : b < 256)
    (hne : b ≠ payload.get ⟨i, hi⟩) (max_retries sizeof_t : Nat) :
    safe_deserializer.deserialize_with_crc max_retries sizeof_t
      (crc32_checksum.calculate payload) (payload.set i b) = .error .data_integrity := by
  unfold safe_deserializer.deserialize_with_crc
  rw [with_retry_det_eq]
  unfold safe_deserializer.deserialize_attempt
  rw [if_pos]
  simp only [crc32_checksum.verify, decide_eq_false_iff_not]
  exact crc32_calculate_set_ne payload i hi b hbytes hb hne

/-- C7 witness: flipping byte 1 of the framed payload `[1, 2, 3]` to 7 is
rejected by the checksum-verified read with the data-integrity
condition. -/
theorem C7_single_byte_flip_detected_witness :
    safe_deserializer.deserialize_with_crc 3 3
      (crc32_checksum.calculate [1, 2, 3]) (([1, 2, 3] : List Nat).set 1 7)
      = .error .data_integrity :=
  C7_single_byte_flip_detected [1, 2, 3] 1 (by decide) 7 (by decide) (by decide)
    (by decide) 3 3

/-! ## LRU recency tracker theorems (C3) -/

theorem assoc_find_mem {K : Type} [DecidableEq K] :
    ∀ (l : List (K × Nat)) (k : K) (v : Nat), assoc_find l k = some v → (k, v) ∈ l := by
  intro l
  induction l with
  | nil => intro k v h; simp [assoc_find] at h
  | cons p rest ih =>
    intro k v h
    simp only [assoc_find] at h
    split at h
    · rename_i hk
      have hv : v = p.2 := by simpa using h.symm
      subst hv
      subst hk
      simp
    · exact List.mem_cons_of_mem p (ih _ _ h)

theorem assoc_find_eq_none_iff {K : Type} [DecidableEq K] :
    ∀ (l : List (K × Nat)) (k : K), assoc_find l k = none ↔ k ∉ l.map Prod.fst := by
  intro l
  induction l with
  | nil => intro k; simp [assoc_find]
  | cons p rest ih =>
    intro k
    simp only [assoc_find, List.map_cons, List.mem_cons]
    split
    · rename_i hk
      simp [hk]
    · rename_i hk
      rw [ih]
      constructor
      · intro h hmem
        rcases hmem with h1 | h1
        · exact hk h1.symm
        · exact h h1
      · intro h hmem
        exact h (Or.inr hmem)

theorem assoc_find_of_mem {K : Type} [DecidableEq K] :
    ∀ (l : List (K × Nat)) (k : K) (v : Nat), (l.map Prod.fst).Nodup → (k, v) ∈ l →
      assoc_find l k = some v := by
  intro l
  induction l with
  | nil => intro k v _ h; simp at h
  | cons p rest ih =>
    intro k v hnd hmem
    simp only [List.map_cons, List.nodup_cons] at hnd
    simp only [assoc_find]
    rcases List.mem_cons.mp hmem with h1 | h1
    · rw [if_pos (by rw [← h1])]
      rw [← h1]
    · rw [if_neg ?_]
      · exact ih k v hnd.2 h1
      · intro hk
        exact hnd.1 (hk ▸ (List.mem_map.mpr ⟨(k, v), h1, rfl⟩))

theorem assoc_set_map_fst_of_mem {K : Type} [DecidableEq K] :
    ∀ (l : List (K × Nat)) (k : K) (v : Nat), k ∈ l.map Prod.fst →
      (assoc_set l k v).map Prod.fst = l.map Prod.fst := by
  intro l
  induction l with
  | nil => intro k v h; simp at h
  | cons p rest ih =>
    intro k v h
    simp only [assoc_set]
    split
    · rename_i hk
      simp [hk]
    · rename_i hk
      simp only [List.map_cons]
      rw [ih k v ?_]
      simp only [List.map_cons, List.mem_cons] at h
      rcases h with h1 | h1
      · exact absurd h1.symm hk
      · exact h1

theorem assoc_set_eq_append_of_not_mem {K : Type} [DecidableEq K] :
    ∀ (l : List (K × Nat)) (k : K) (v : Nat), k ∉ l.map Prod.fst →
      assoc_set l k v = l ++ [(k, v)] := by
  intro l
  induction l with
  | nil => intro k v _; rfl
  | cons p rest ih =>
    intro k v h
    simp only [List.map_cons, List.mem_cons] at h
    push_neg at h
    simp only [assoc_set]
    rw [if_neg (fun hc => h.1 hc.symm)]
    rw [ih k v h.2]
    simp

theorem assoc_set_nodup {K : Type} [DecidableEq K] (l : List (K × Nat)) (k : K) (v : Nat)
    (hnd : (l.map Prod.fst).Nodup) : ((assoc_set l k v).map Prod.fst).Nodup := by
  by_cases hmem : k ∈ l.map Prod.fst
  · rw [assoc_set_map_fst_of_mem l k v hmem]
    exact hnd
  · rw [assoc_set_eq_append_of_not_mem l k v hmem]
    rw [List.map_append]
    rw [List.nodup_append]
    refine ⟨hnd, by simp, ?_⟩
    intro a ha hb
    simp only [List.map_cons, List.map_nil, List.mem_cons, List.not_mem_nil, or_false] at hb
    exact hmem (hb ▸ ha)

theorem assoc_set_mem_iff {K : Type} [DecidableEq K] :
    ∀ (l : List (K × Nat)) (k : K) (v : Nat) (k2 : K) (v2 : Nat),
      (l.map Prod.fst).Nodup →
      ((k2, v2) ∈ assoc_set l k v ↔ (k2 = k ∧ v2 = v) ∨ (k2 ≠ k ∧ (k2, v2) ∈ l)) := by
  intro l
  induction l with
  | nil =>
    intro k v k2 v2 _
    constructor
    · intro h
      simp only [assoc_set, List.mem_singleton, Prod.mk.injEq] at h
      exact Or.inl h
    · intro h
      rcases h with ⟨h1, h2⟩ | ⟨-, h2⟩
      · simp [assoc_set, h1, h2]
      · simp at h2
  | cons p rest ih =>
    intro k v k2 v2 hnd
    simp only [List.map_cons, List.nodup_cons] at hnd
    simp only [assoc_set]
    split
    · rename_i hk
      simp only [List.mem_cons, Prod.mk.injEq]
      constructor
      · intro h
        rcases h with ⟨h1, h2⟩ | h1
        · exact Or.inl ⟨h1, h2⟩
        · refine Or.inr ⟨?_, Or.inr h1⟩
          intro hc
          subst hc
          exact hnd.1 (hk ▸ List.mem_map.mpr ⟨(k2, v2), h1, rfl⟩)
      · intro h
        rcases h with ⟨h1, h2⟩ | ⟨h1, h2 | h2⟩
        · exact Or.inl ⟨h1, h2⟩
        · exfalso
          apply h1
          rw [← hk, ← h2]
        · exact Or.inr h2
    · rename_i hk
      simp only [List.mem_cons]
      rw [ih k v k2 v2 hnd.2]
      constructor
      · intro h
        rcases h with h1 | ⟨h1, h2⟩ | ⟨h1, h2⟩
        · refine Or.inr ⟨?_, Or.inl h1⟩
          intro hc
          apply hk
          have hp1 : p.1 = k2 := by rw [← h1]
          rw [hp1]
          exact hc
        · exact Or.inl ⟨h1, h2⟩
        · exact Or.inr ⟨h1, Or.inr h2⟩
      · intro h
        rcases h with ⟨h1, h2⟩ | ⟨h1, h2 | h2⟩
        · exact Or.inr (Or.inl ⟨h1, h2⟩)
        · exact Or.inl h2
        · exact Or.inr (Or.inr ⟨h1, h2⟩)

theorem assoc_erase_sublist {K : Type} [DecidableEq K] :
    ∀ (l : List (K × Nat)) (k : K), List.Sublist (assoc_erase l k) l := by
  intro l
  induction l with
  | nil => intro k; simp [assoc_erase]
  | cons p rest ih =>
    intro k
    simp only [assoc_erase]
    split
    · exact List.sublist_cons_self p rest
    · exact List.Sublist.cons₂ p (ih k)

theorem assoc_erase_mem_iff {K : Type} [DecidableEq K] :
    ∀ (l : List (K × Nat)) (k : K) (k2 : K) (v2 : Nat), (l.map Prod.fst).Nodup →
      ((k2, v2) ∈ assoc_erase l k ↔ (k2, v2) ∈ l ∧ k2 ≠ k) := by
  intro l
  induction l with
  | nil => intro k k2 v2 _; simp [assoc_erase]
  | cons p rest ih =>
    intro k k2 v2 hnd
    simp only [List.map_cons, List.nodup_cons] at hnd
    simp only [assoc_erase]
    split
    · rename_i hk
      simp only [List.mem_cons]
      constructor
      · intro h
        refine ⟨Or.inr h, ?_⟩
        intro hc
        subst hc
        exact hnd.1 (hk ▸ List.mem_map.mpr ⟨(k2, v2), h, rfl⟩)
      · intro ⟨h1, h2⟩
        rcases h1 with h1 | h1
        · exfalso
          apply h2
          rw [← hk, ← h1]
        · exact h1
    · rename_i hk
      simp only [List.mem_cons]
      rw [ih k k2 v2 hnd.2]
      constructor
      · intro h
        rcases h with h1 | ⟨h1, h2⟩
        · refine ⟨Or.inl h1, ?_⟩
          intro hc
          apply hk
          have hp1 : p.1 = k2 := by rw [← h1]
          rw [hp1]
          exact hc
        · exact ⟨Or.inr h1, h2⟩
      · intro ⟨h1, h2⟩
        rcases h1 with h1 | h1
        · exact Or.inl h1
        · exact Or.inr ⟨h1, h2⟩

theorem nodup_fst_eq {A B : Type} :
    ∀ (l : List (A × B)), (l.map Prod.fst).Nodup →
      ∀ (a : A) (b c : B), (a, b) ∈ l → (a, c) ∈ l → b = c := by
  intro l
  induction l with
  | nil => intro _ a b c h; simp at h
  | cons p rest ih =>
    intro hnd a b c hb hc
    simp only [List.map_cons, List.nodup_cons] at hnd
    rcases List.mem_cons.mp hb with h1 | h1 <;> rcases List.mem_cons.mp hc with h2 | h2
    · rw [← h1] at h2
      exact (Prod.mk.injEq .. |>.mp h2).2.symm
    · exfalso
      apply hnd.1
      have : p.1 = a := by rw [← h1]
      rw [this]
      exact List.mem_map.mpr ⟨(a, c), h2, rfl⟩
    · exfalso
      apply hnd.1
      have : p.1 = a := by rw [← h2]
      rw [this]
      exact List.mem_map.mpr ⟨(a, b), h1, rfl⟩
    · exact ih hnd.2 a b c h1 h2

theorem nodup_snd_eq {A B : Type} :
    ∀ (l : List (A × B)), (l.map Prod.snd).Nodup →
      ∀ (b : B) (a c : A), (a, b) ∈ l → (c, b) ∈ l → a = c := by
  intro l
  induction l with
  | nil => intro _ b a c h; simp at h
  | cons p rest ih =>
    intro hnd b a c ha hc
    simp only [List.map_cons, List.nodup_cons] at hnd
    rcases List.mem_cons.mp ha with h1 | h1 <;> rcases List.mem_cons.mp hc with h2 | h2
    · rw [← h1] at h2
      exact (Prod.mk.injEq .. |>.mp h2).1.symm
    · exfalso
      apply hnd.1
      have : p.2 = b := by rw [← h1]
      rw [this]
      exact List.mem_map.mpr ⟨(c, b), h2, rfl⟩
    · exfalso
      apply hnd.1
      have : p.2 = b := by rw [← h2]
      rw [this]
      exact List.mem_map.mpr ⟨(a, b), h1, rfl⟩
    · exact ih hnd.2 b a c h1 h2

theorem mem_filter_ne_id {K : Type} (l : List (Nat × K)) (id : Nat) (q : Nat × K) :
    q ∈ l.filter (fun p => decide (p.1 ≠ id)) ↔ q ∈ l ∧ q.1 ≠ id := by
  rw [List.mem_filter]
  simp

theorem map_snd_filter_erase {K : Type} [DecidableEq K] :
    ∀ (l : List (Nat × K)) (id : Nat) (k : K), (l.map Prod.fst).Nodup →
      (l.map Prod.snd).Nodup → (id, k) ∈ l →
      (l.filter (fun p => decide (p.1 ≠ id))).map Prod.snd = (l.map Prod.snd).erase k := by
  intro l
  induction l with
  | nil => intro id k _ _ h; simp at h
  | cons q rest ih =>
    intro id k hids hkeys hmem
    simp only [List.map_cons, List.nodup_cons] at hids hkeys
    rcases List.mem_cons.mp hmem with h1 | h1
    · have hq1 : q.1 = id := by rw [← h1]
      have hq2 : q.2 = k := by rw [← h1]
      rw [List.filter_cons_of_neg (by simp [hq1])]
      rw [List.map_cons, hq2, List.erase_cons_head]
      rw [List.filter_eq_self.mpr]
      intro p hp
      simp only [decide_eq_true_eq]
      intro hc
      apply hids.1
      have hpmem : p.1 ∈ List.map Prod.fst rest := List.mem_map.mpr ⟨p, hp, rfl⟩
      rw [hc, ← hq1] at hpmem
      exact hpmem
    · have hq1 : q.1 ≠ id := by
        intro hc
        exact hids.1 (hc ▸ List.mem_map.mpr ⟨(id, k), h1, rfl⟩)
      have hq2 : q.2 ≠ k := by
        intro hc
        exact hkeys.1 (hc ▸ List.mem_map.mpr ⟨(id, k), h1, rfl⟩)
      rw [List.filter_cons_of_pos (by simp [hq1])]
      rw [List.map_cons, List.map_cons, List.erase_cons_tail (by simp [hq2])]
      rw [ih id k hids.2 hkeys.2 h1]

theorem lru_touch_wf {K : Type} [DecidableEq K] (k : K) (s : lru_state K)
    (hwf : lru_wf s) : lru_wf (lru_eviction_policy.touch k s) := by
  obtain ⟨hids, hlt, hak, hlk, hlink⟩ := hwf
  unfold lru_eviction_policy.touch
  cases hfind : assoc_find s.key_to_iter k with
  | some id =>
    show lru_wf { lru_list := (s.next_id, k) :: s.lru_list.filter (fun p => decide (p.1 ≠ id)),
                  key_to_iter := assoc_set s.key_to_iter k s.next_id,
                  next_id := s.next_id + 1 }
    have hkid : (k, id) ∈ s.key_to_iter := assoc_find_mem _ _ _ hfind
    have hidk : (id, k) ∈ s.lru_list := (hlink k id).mp hkid
    have hfilter_sub : List.Sublist (s.lru_list.filter (fun p => decide (p.1 ≠ id)))
        s.lru_list := List.filter_sublist _
    refine ⟨?_, ?_, ?_, ?_, ?_⟩
    · simp only [List.map_cons, List.nodup_cons]
      constructor
      · intro hmem
        obtain ⟨q, hq, hq1⟩ := List.mem_map.mp hmem
        have hqlt := hlt q ((mem_filter_ne_id _ _ _).mp hq).1
        omega
      · exact List.Nodup.sublist (List.Sublist.map Prod.fst hfilter_sub) hids
    · intro p hp
      rcases List.mem_cons.mp hp with h1 | h1
      · rw [h1]
        dsimp only
        omega
      · have := hlt p ((mem_filter_ne_id _ _ _).mp h1).1
        dsimp only
        omega
    · exact assoc_set_nodup _ _ _ hak
    · simp only [List.map_cons, List.nodup_cons]
      constructor
      · intro hmem
        obtain ⟨q, hq, hq2⟩ := List.mem_map.mp hmem
        obtain ⟨hql, hqid⟩ := (mem_filter_ne_id _ _ _).mp hq
        have : q = (q.1, k) := by rw [← hq2]
        have hq' : (q.1, k) ∈ s.lru_list := this ▸ hql
        exact hqid (nodup_snd_eq _ hlk k q.1 id hq' hidk)
      · exact List.Nodup.sublist (List.Sublist.map Prod.snd hfilter_sub) hlk
    · intro k2 id2
      rw [assoc_set_mem_iff _ _ _ _ _ hak]
      simp only [List.mem_cons, Prod.mk.injEq]
      constructor
      · intro h
        rcases h with ⟨h1, h2⟩ | ⟨h1, h2⟩
        · exact Or.inl ⟨h2, h1⟩
        · refine Or.inr ?_
          rw [mem_filter_ne_id]
          have hmem : (id2, k2) ∈ s.lru_list := (hlink k2 id2).mp h2
          refine ⟨hmem, ?_⟩
          intro hc
          have hc2 : id2 = id := hc
          rw [hc2] at hmem
          exact h1 (nodup_fst_eq _ hids id k2 k hmem hidk)
      · intro h
        rcases h with ⟨h1, h2⟩ | h1
        · exact Or.inl ⟨h2, h1⟩
        · rw [mem_filter_ne_id] at h1
          refine Or.inr ⟨?_, (hlink k2 id2).mpr h1.1⟩
          intro hc
          rw [hc] at h1
          exact h1.2 (nodup_snd_eq _ hlk k id2 id h1.1 hidk)
  | none =>
    show lru_wf { lru_list := (s.next_id, k) :: s.lru_list,
                  key_to_iter := assoc_set s.key_to_iter k s.next_id,
                  next_id := s.next_id + 1 }
    have hknotin : k ∉ s.key_to_iter.map Prod.fst := (assoc_find_eq_none_iff _ _).mp hfind
    have hknotlist : ∀ id2, (id2, k) ∉ s.lru_list := by
      intro id2 hmem
      exact hknotin (List.mem_map.mpr ⟨(k, id2), (hlink k id2).mpr hmem, rfl⟩)
    refine ⟨?_, ?_, ?_, ?_, ?_⟩
    · simp only [List.map_cons, List.nodup_cons]
      constructor
      · intro hmem
        obtain ⟨q, hq, hq1⟩ := List.mem_map.mp hmem
        have := hlt q hq
        omega
      · exact hids
    · intro p hp
      rcases List.mem_cons.mp hp with h1 | h1
      · rw [h1]
        dsimp only
        omega
      · have := hlt p h1
        dsimp only
        omega
    · exact assoc_set_nodup _ _ _ hak
    · simp only [List.map_cons, List.nodup_cons]
      constructor
      · intro hmem
        obtain ⟨q, hq, hq2⟩ := List.mem_map.mp hmem
        have : q = (q.1, k) := by rw [← hq2]
        exact hknotlist q.1 (this ▸ hq)
      · exact hlk
    · intro k2 id2
      rw [assoc_set_mem_iff _ _ _ _ _ hak]
      simp only [List.mem_cons, Prod.mk.injEq]
      constructor
      · intro h
        rcases h with ⟨h1, h2⟩ | ⟨h1, h2⟩
        · exact Or.inl ⟨h2, h1⟩
        · exact Or.inr ((hlink k2 id2).mp h2)
      · intro h
        rcases h with ⟨h1, h2⟩ | h1
        · exact Or.inl ⟨h2, h1⟩
        · refine Or.inr ⟨?_, (hlink k2 id2).mpr h1⟩
          intro hc
          rw [hc] at h1
          exact hknotlist id2 h1

theorem lru_evict_wf {K : Type} [DecidableEq K] (s : lru_state K) (hwf : lru_wf s) :
    lru_wf (lru_eviction_policy.get_eviction_key s).2 := by
  obtain ⟨hids, hlt, hak, hlk, hlink⟩ := hwf
  unfold lru_eviction_policy.get_eviction_key
  cases hlast : s.lru_list.getLast? with
  | none => exact ⟨hids, hlt, hak, hlk, hlink⟩
  | some p =>
    show lru_wf { lru_list := s.lru_list.dropLast,
                  key_to_iter := assoc_erase s.key_to_iter p.2, next_id := s.next_id }
    have hpmem : p ∈ s.lru_list := list_getLast?_mem _ _ hlast
    have hsplit : s.lru_list.dropLast ++ [p] = s.lru_list :=
      List.dropLast_append_getLast? p hlast
    have hdropsub := List.dropLast_sublist s.lru_list
    have hnodup_entries : s.lru_list.Nodup := List.Nodup.of_map Prod.fst hids
    have hpnotdrop : p ∉ s.lru_list.dropLast := by
      have h2 : (s.lru_list.dropLast ++ [p]).Nodup := by
        rw [hsplit]
        exact hnodup_entries
      obtain ⟨-, -, hdisj⟩ := List.nodup_append.mp h2
      intro hc
      exact hdisj hc (by simp)
    refine ⟨?_, ?_, ?_, ?_, ?_⟩
    · exact List.Nodup.sublist (List.Sublist.map Prod.fst hdropsub) hids
    · intro q hq
      exact hlt q (hdropsub.subset hq)
    · exact List.Nodup.sublist (List.Sublist.map Prod.fst (assoc_erase_sublist _ _)) hak
    · exact List.Nodup.sublist (List.Sublist.map Prod.snd hdropsub) hlk
    · intro k2 id2
      rw [assoc_erase_mem_iff _ _ _ _ hak, hlink k2 id2]
      constructor
      · intro ⟨h1, h2⟩
        have hne : (id2, k2) ≠ p := by
          intro hc
          apply h2
          rw [← hc]
        rw [← hsplit] at h1
        rcases List.mem_append.mp h1 with h3 | h3
        · exact h3
        · simp only [List.mem_singleton] at h3
          exact absurd h3 hne
      · intro h1
        refine ⟨hdropsub.subset h1, ?_⟩
        intro hc
        apply hpnotdrop
        have hp' : (p.1, p.2) ∈ s.lru_list := by simpa using hpmem
        have hmem2 : (id2, p.2) ∈ s.lru_list := by
          rw [← hc]
          exact hdropsub.subset h1
        have hid2 : id2 = p.1 := nodup_snd_eq _ hlk p.2 id2 p.1 hmem2 hp'
        have hpe : (id2, k2) = p := by rw [hid2, hc]
        rw [← hpe]
        exact h1

theorem lru_remove_wf {K : Type} [DecidableEq K] (k : K) (s : lru_state K)
    (hwf : lru_wf s) : lru_wf (lru_eviction_policy.remove k s) := by
  obtain ⟨hids, hlt, hak, hlk, hlink⟩ := hwf
  unfold lru_eviction_policy.remove
  cases hfind : assoc_find s.key_to_iter k with
  | none => exact ⟨hids, hlt, hak, hlk, hlink⟩
  | some id =>
    show lru_wf { lru_list := s.lru_list.filter (fun p => decide (p.1 ≠ id)),
                  key_to_iter := assoc_erase s.key_to_iter k, next_id := s.next_id }
    have hkid : (k, id) ∈ s.key_to_iter := assoc_find_mem _ _ _ hfind
    have hidk : (id, k) ∈ s.lru_list := (hlink k id).mp hkid
    have hfsub : List.Sublist (s.lru_list.filter (fun p => decide (p.1 ≠ id)))
        s.lru_list := List.filter_sublist _
    refine ⟨?_, ?_, ?_, ?_, ?_⟩
    · exact List.Nodup.sublist (List.Sublist.map Prod.fst hfsub) hids
    · intro q hq
      exact hlt q (hfsub.subset hq)
    · exact List.Nodup.sublist (List.Sublist.map Prod.fst (assoc_erase_sublist _ _)) hak
    · exact List.Nodup.sublist (List.Sublist.map Prod.snd hfsub) hlk
    · intro k2 id2
      rw [assoc_erase_mem_iff _ _ _ _ hak, hlink k2 id2, mem_filter_ne_id]
      constructor
      · intro ⟨h1, h2⟩
        refine ⟨h1, ?_⟩
        intro hc
        have hc2 : id2 = id := hc
        apply h2
        rw [hc2] at h1
        exact nodup_fst_eq _ hids id k2 k h1 hidk
      · intro ⟨h1, h2⟩
        refine ⟨h1, ?_⟩
        intro hc
        rw [hc] at h1
        apply h2
        have hc3 : id2 = id := nodup_snd_eq _ hlk k id2 id h1 hidk
        exact hc3

theorem lru_clear_wf {K : Type} (s : lru_state K) :
    lru_wf (lru_eviction_policy.clear s) := by
  unfold lru_eviction_policy.clear
  refine ⟨by simp, ?_, by simp, by simp, ?_⟩
  · intro p hp
    simp at hp
  · intro k id
    simp

theorem lru_apply_wf {K : Type} [DecidableEq K] (op : lru_op K) (s : lru_state K)
    (hwf : lru_wf s) : lru_wf (lru_apply op s) := by
  cases op with
  | touch k => exact lru_touch_wf k s hwf
  | evict => exact lru_evict_wf s hwf
  | remove k => exact lru_remove_wf k s hwf
  | clear_all => exact lru_clear_wf s

theorem lru_touch_proj {K : Type} [DecidableEq K] (k : K) (s : lru_state K)
    (hwf : lru_wf s) :
    (lru_eviction_policy.touch k s).lru_list.map Prod.snd
      = k :: (s.lru_list.map Prod.snd).erase k := by
  obtain ⟨hids, hlt, hak, hlk, hlink⟩ := hwf
  unfold lru_eviction_policy.touch
  cases hfind : assoc_find s.key_to_iter k with
  | some id =>
    show ((s.next_id, k) :: s.lru_list.filter (fun p => decide (p.1 ≠ id))).map Prod.snd = _
    rw [List.map_cons]
    congr 1
    exact map_snd_filter_erase _ id k hids hlk
      ((hlink k id).mp (assoc_find_mem _ _ _ hfind))
  | none =>
    show ((s.next_id, k) :: s.lru_list).map Prod.snd = _
    rw [List.map_cons]
    congr 1
    refine (List.erase_of_not_mem ?_).symm
    intro hc
    obtain ⟨q, hq, hq2⟩ := List.mem_map.mp hc
    have hq' : (q.1, k) ∈ s.lru_list := by
      have : q = (q.1, k) := by rw [← hq2]
      rw [← this]
      exact hq
    exact (assoc_find_eq_none_iff _ _).mp hfind
      (List.mem_map.mpr ⟨(k, q.1), (hlink k q.1).mpr hq', rfl⟩)

theorem lru_evict_proj {K : Type} [DecidableEq K] (s : lru_state K) :
    ((lru_eviction_policy.get_eviction_key s).2).lru_list.map Prod.snd
      = (s.lru_list.map Prod.snd).dropLast := by
  unfold lru_eviction_policy.get_eviction_key
  cases hlast : s.lru_list.getLast? with
  | none =>
    have hnil : s.lru_list = [] := by
      by_contra hne
      have hsome := List.getLast?_isSome.mpr hne
      rw [hlast] at hsome
      simp at hsome
    show s.lru_list.map Prod.snd = _
    simp [hnil]
  | some p =>
    show (s.lru_list.dropLast).map Prod.snd = _
    exact List.map_dropLast _ _

theorem lru_remove_proj {K : Type} [DecidableEq K] (k : K) (s : lru_state K)
    (hwf : lru_wf s) :
    (lru_eviction_policy.remove k s).lru_list.map Prod.snd
      = (s.lru_list.map Prod.snd).erase k := by
  obtain ⟨hids, hlt, hak, hlk, hlink⟩ := hwf
  unfold lru_eviction_policy.remove
  cases hfind : assoc_find s.key_to_iter k with
  | some id =>
    show (s.lru_list.filter (fun p => decide (p.1 ≠ id))).map Prod.snd = _
    exact map_snd_filter_erase _ id k hids hlk
      ((hlink k id).mp (assoc_find_mem _ _ _ hfind))
  | none =>
    show s.lru_list.map Prod.snd = _
    refine (List.erase_of_not_mem ?_).symm
    intro hc
    obtain ⟨q, hq, hq2⟩ := List.mem_map.mp hc
    have hq' : (q.1, k) ∈ s.lru_list := by
      have : q = (q.1, k) := by rw [← hq2]
      rw [← this]
      exact hq
    exact (assoc_find_eq_none_iff _ _).mp hfind
      (List.mem_map.mpr ⟨(k, q.1), (hlink k q.1).mpr hq', rfl⟩)

theorem lru_evict_key {K : Type} [DecidableEq K] (s : lru_state K) :
    (lru_eviction_policy.get_eviction_key s).1
      = (s.lru_list.map Prod.snd).getLast? := by
  unfold lru_eviction_policy.get_eviction_key
  rw [List.getLast?_map]
  cases hlast : s.lru_list.getLast? with
  | none => rfl
  | some p => rfl

theorem lru_apply_proj {K : Type} [DecidableEq K] (op : lru_op K) (s : lru_state K)
    (hwf : lru_wf s) :
    (lru_apply op s).lru_list.map Prod.snd
      = recency_spec_apply op (s.lru_list.map Prod.snd) := by
  cases op with
  | touch k => exact lru_touch_proj k s hwf
  | evict => exact lru_evict_proj s
  | remove k => exact lru_remove_proj k s hwf
  | clear_all => rfl

theorem lru_run_wf_proj {K : Type} [DecidableEq K] (ops : List (lru_op K)) :
    ∀ s : lru_state K, lru_wf s →
      lru_wf (ops.foldl (fun s op => lru_apply op s) s) ∧
      (ops.foldl (fun s op => lru_apply op s) s).lru_list.map Prod.snd
        = ops.foldl (fun l op => recency_spec_apply op l) (s.lru_list.map Prod.snd) := by
  induction ops with
  | nil => intro s hwf; exact ⟨hwf, rfl⟩
  | cons op rest ih =>
    intro s hwf
    rw [List.foldl_cons, List.foldl_cons]
    obtain ⟨hw, hp⟩ := ih (lru_apply op s) (lru_apply_wf op s hwf)
    refine ⟨hw, ?_⟩
    rw [hp, lru_apply_proj op s hwf]

theorem lru_initial_wf {K : Type} : lru_wf (⟨[], [], 0⟩ : lru_state K) := by
  refine ⟨by simp, ?_, by simp, by simp, ?_⟩
  · intro p hp
    simp at hp
  · intro k id
    simp

/-- C3: for every sequence of touch, get_eviction_key, remove and clear
operations on the recency tracker, the key set of the key-to-node index
equals the set of keys in the recency list, every tracked key occupies
exactly one list position with the index pointing to that position, the
list coincides with the abstract most-recently-touched-first recency list
the spec describes, and get_eviction_key returns the least-recently-used
(last) key. -/
theorem C3_recency_tracker_invariants {K : Type} [DecidableEq K] (ops : List (lru_op K)) :
    (∀ k : K, (∃ id, (k, id) ∈ (lru_run ops).key_to_iter) ↔
      k ∈ (lru_run ops).lru_list.map Prod.snd) ∧
    ((lru_run ops).lru_list.map Prod.snd).Nodup ∧
    (∀ (k : K) (id : Nat), assoc_find (lru_run ops).key_to_iter k = some id →
      (id, k) ∈ (lru_run ops).lru_list) ∧
    (lru_run ops).lru_list.map Prod.snd = recency_spec_run ops ∧
    (lru_eviction_policy.get_eviction_key (lru_run ops)).1
      = (recency_spec_run ops).getLast? := by
  obtain ⟨hwf, hproj⟩ := lru_run_wf_proj ops (⟨[], [], 0⟩ : lru_state K) lru_initial_wf
  refine ⟨?_, hwf.lkeys_nodup, ?_, ?_, ?_⟩
  · intro k
    constructor
    · intro ⟨id, hmem⟩
      exact List.mem_map.mpr ⟨(id, k), (hwf.link k id).mp hmem, rfl⟩
    · intro hk
      obtain ⟨q, hq, hq2⟩ := List.mem_map.mp hk
      have hq' : (q.1, k) ∈ (lru_run ops).lru_list := by
        have : q = (q.1, k) := by rw [← hq2]
        rw [← this]
        exact hq
      exact ⟨q.1, (hwf.link k q.1).mpr hq'⟩
  · intro k id hfind
    exact (hwf.link k id).mp (assoc_find_mem _ _ _ hfind)
  · exact hproj
  · rw [lru_evict_key]
    unfold lru_run recency_spec_run
    rw [hproj]
    rfl

/-- C2 witness: the invariant instantiated on a concrete operation
sequence, including the saturating-deallocation clause at a concrete
over-count. -/
theorem C2_budget_invariant_witness :
    (0 ≤ (budget_run 10 [.alloc 5 true, .dealloc 7]).total_allocated ∧
      (budget_run 10 [.alloc 5 true, .dealloc 7]).total_allocated ≤
        (budget_run 10 [.alloc 5 true, .dealloc 7]).memory_limit) ∧
    (tracking_allocator.deallocate 1
      (budget_run 10 [.alloc 5 true, .dealloc 7])).total_allocated = 0 :=
  ⟨(C2_budget_invariant 10 [.alloc 5 true, .dealloc 7]).1,
   (C2_budget_invariant 10 [.alloc 5 true, .dealloc 7]).2 1 (by decide)⟩

/-- C3 witness: the invariants instantiated on a concrete trace — after
touching keys 1 then 2, the index entry for key 1 points at its node in
the list, and the list refines the abstract recency list. -/
theorem C3_recency_tracker_invariants_witness :
    ((0 : Nat), (1 : Nat)) ∈ (lru_run [lru_op.touch 1, lru_op.touch 2]).lru_list ∧
    (lru_run [lru_op.touch 1, lru_op.touch 2]).lru_list.map Prod.snd
      = recency_spec_run [lru_op.touch 1, lru_op.touch 2] :=
  ⟨(C3_recency_tracker_invariants [lru_op.touch 1, lru_op.touch 2]).2.2.1 1 0 rfl,
   (C3_recency_tracker_invariants [lru_op.touch 1, lru_op.touch 2]).2.2.2.1⟩
